import Mathlib

/-!
Shallow embedding of the rspirv-linker deduplication passes
(src/rspirv-linker/src/duplicates.rs) and of the type-model translator
(src/rspirv-linker/src/ty.rs), together with theorems settling the
specification claims about them.

Modelling conventions:
* SPIR-V identifiers are `Nat` (opaque 32-bit words in the source; no
  arithmetic is ever performed on them, so no wrap-around modelling is
  needed).
* Rust panics (`unwrap`, `assert!`, out-of-bounds indexing, `expect`,
  `panic!`) are modelled by `Option`/failure results: a pass returns
  `none` exactly when the source would abort.
* `HashMap` is modelled as an association list (`alookup` finds the first
  binding; the source inserts each key at most once, guarded by an
  `assert`, so order is irrelevant); `HashSet` is a `List` used only
  through membership.
* The rspirv module sections not touched by these passes are collapsed
  into the single list `functions`; `all_inst_iter_mut` corresponds to
  mapping over all four section lists.
-/

/-- SPIR-V opcodes used by the linker passes (closed dispatch set, as the
spec prescribes).  The numeric codes below are the actual SPIR-V opcode
values, exposed by `Op.code` (the source casts `inst.class.opcode as u32`
when building structural keys). -/
inductive Op
  | Nop
  | ExtInstImport
  | ExtInst
  | Capability
  | TypeVoid
  | TypeBool
  | TypeInt
  | TypeFloat
  | TypeVector
  | TypeMatrix
  | TypeImage
  | TypeSampler
  | TypeSampledImage
  | TypeArray
  | TypeRuntimeArray
  | TypeStruct
  | TypeOpaque
  | TypePointer
  | TypeFunction
  | TypeEvent
  | TypeDeviceEvent
  | TypeReserveId
  | TypeQueue
  | TypePipe
  | TypeForwardPointer
  | Constant
  | SpecConstant
  | Variable
  | TypePipeStorage
  | TypeNamedBarrier
deriving DecidableEq

/-- The SPIR-V numeric value of each opcode (`inst.class.opcode as u32`). -/
def Op.code : Op → Nat
  | .Nop => 0
  | .ExtInstImport => 11
  | .ExtInst => 12
  | .Capability => 17
  | .TypeVoid => 19
  | .TypeBool => 20
  | .TypeInt => 21
  | .TypeFloat => 22
  | .TypeVector => 23
  | .TypeMatrix => 24
  | .TypeImage => 25
  | .TypeSampler => 26
  | .TypeSampledImage => 27
  | .TypeArray => 28
  | .TypeRuntimeArray => 29
  | .TypeStruct => 30
  | .TypeOpaque => 31
  | .TypePointer => 32
  | .TypeFunction => 33
  | .TypeEvent => 34
  | .TypeDeviceEvent => 35
  | .TypeReserveId => 36
  | .TypeQueue => 37
  | .TypePipe => 38
  | .TypeForwardPointer => 39
  | .Constant => 43
  | .SpecConstant => 50
  | .Variable => 59
  | .TypePipeStorage => 322
  | .TypeNamedBarrier => 327

/-- Decoder witnessing that `Op.code` is injective. -/
def Op.decode : Nat → Op
  | 11 => .ExtInstImport
  | 12 => .ExtInst
  | 17 => .Capability
  | 19 => .TypeVoid
  | 20 => .TypeBool
  | 21 => .TypeInt
  | 22 => .TypeFloat
  | 23 => .TypeVector
  | 24 => .TypeMatrix
  | 25 => .TypeImage
  | 26 => .TypeSampler
  | 27 => .TypeSampledImage
  | 28 => .TypeArray
  | 29 => .TypeRuntimeArray
  | 30 => .TypeStruct
  | 31 => .TypeOpaque
  | 32 => .TypePointer
  | 33 => .TypeFunction
  | 34 => .TypeEvent
  | 35 => .TypeDeviceEvent
  | 36 => .TypeReserveId
  | 37 => .TypeQueue
  | 38 => .TypePipe
  | 39 => .TypeForwardPointer
  | 43 => .Constant
  | 50 => .SpecConstant
  | 59 => .Variable
  | 322 => .TypePipeStorage
  | 327 => .TypeNamedBarrier
  | _ => .Nop

theorem Op.decode_code (o : Op) : Op.decode o.code = o := by
  cases o <;> rfl

theorem Op.code_injective : Function.Injective Op.code := by
  intro a b h
  have := congrArg Op.decode h
  rwa [Op.decode_code, Op.decode_code] at this

/-- `rspirv::dr::Operand`, restricted to the variants the two source files
inspect.  Enumerated SPIR-V values (storage classes, dims, image formats,
access qualifiers, capabilities) are carried as their numeric words. -/
inductive Operand
  | IdRef (id : Nat)
  | LiteralInt32 (n : Nat)
  | LiteralInt64 (n : Nat)
  | LiteralString (s : String)
  | Capability (c : Nat)
  | StorageClass (s : Nat)
  | Dim (d : Nat)
  | ImageFormat (f : Nat)
  | AccessQualifier (a : Nat)
deriving DecidableEq

/-- `rspirv::dr::Instruction`: opcode, optional result id, optional result
type, ordered operands. -/
structure Instruction where
  opcode : Op
  result_id : Option Nat
  result_type : Option Nat
  operands : List Operand
deriving DecidableEq

/-- `rspirv::dr::Module` (the name `Module` itself is taken by Mathlib),
restricted to the sections these passes read or
write.  Every module section not individually named here (entry points,
annotations, function bodies, ...) is folded into `functions`;
`all_inst_iter_mut` visits all four lists. -/
structure SpvModule where
  capabilities : List Instruction
  ext_inst_imports : List Instruction
  types_global_values : List Instruction
  functions : List Instruction

/-- All instructions of the module, as visited by `all_inst_iter_mut`. -/
def SpvModule.allInsts (m : SpvModule) : List Instruction :=
  m.capabilities ++ m.ext_inst_imports ++ m.types_global_values ++ m.functions

/-- The `OpNop` marker the source overwrites deleted instructions with:
`Instruction::new(spirv::Op::Nop, None, None, vec![])`. -/
def nopInst : Instruction := ⟨Op.Nop, none, none, []⟩

/-- Association-list lookup, modelling `HashMap::get` (every key is
inserted at most once in the source, so first-match lookup is faithful). -/
def alookup {α β : Type} [DecidableEq α] : List (α × β) → α → Option β
  | [], _ => none
  | (k, v) :: rest, a => if k = a then some v else alookup rest a

/-- `rules.get(id).copied().unwrap_or(*id)`. -/
def lookupD (rules : List (Nat × Nat)) (id : Nat) : Nat :=
  (alookup rules id).getD id

/-- Modelled from the spec: the crate-level helper `operand_idref_mut`
(declared in the linker's lib.rs, which is not part of the provided
sources) selects the identifier-reference payload of an operand; per the
spec's data model (§3) the reference-carrying operand variant is `IdRef`. -/
def operand_idref : Operand → Option Nat
  | .IdRef id => some id
  | _ => none

/-- One operand of `rewrite_inst_with_rules`: if the operand is an
identifier reference, replace it through the rules, otherwise leave it. -/
def rewriteOperand (rules : List (Nat × Nat)) (op : Operand) : Operand :=
  match operand_idref op with
  | some id => Operand.IdRef (lookupD rules id)
  | none => op

/-- `rewrite_inst_with_rules` (src/rspirv-linker/src/duplicates.rs:60):
rewrite the result type and every identifier-reference operand through
the rewrite rules, leaving unmapped identifiers untouched. -/
def rewrite_inst_with_rules (rules : List (Nat × Nat)) (inst : Instruction) :
    Instruction :=
  { inst with
    result_type := inst.result_type.map (lookupD rules),
    operands := inst.operands.map (rewriteOperand rules) }

/-! ### remove_duplicate_capablities (duplicates.rs:5) -/

/-- The loop body of `remove_duplicate_capablities`: walk the capability
section, keeping an instruction when its first operand is a `Capability`
value not seen before (`set.insert(cap)`) or is not a `Capability` at all.
Indexing `c.operands[0]` on an instruction without operands panics, hence
the `none` result. -/
def capsLoop (seen : List Nat) : List Instruction → Option (List Instruction)
  | [] => some []
  | c :: rest =>
    match c.operands.head? with
    | none => none
    | some (Operand.Capability cap) =>
      if cap ∈ seen then capsLoop seen rest
      else (capsLoop (cap :: seen) rest).map (fun l => c :: l)
    | some _ => (capsLoop seen rest).map (fun l => c :: l)

/-- `remove_duplicate_capablities`: replace the capability section with
the deduplicated list; no other section is touched. -/
def remove_duplicate_capablities (m : SpvModule) : Option SpvModule :=
  (capsLoop [] m.capabilities).map (fun caps => { m with capabilities := caps })

/-! ### remove_duplicate_ext_inst_imports (duplicates.rs:23) -/

/-- The first loop of `remove_duplicate_ext_inst_imports`: deduplicate
the import section by literal name.  A first occurrence of a name registers
its result id (`ext_to_id`); a repeat occurrence records a rewrite rule to
the canonical id (the `assert!(old_value.is_none())` is the `none` branch
on an already-mapped id) and replaces the instruction with `OpNop`.
Instructions whose first operand is not a literal string pass through.
Returns the processed section (still containing the `OpNop` markers) and
the rewrite rules. -/
def importsLoop (ext_to_id : List (String × Nat)) (rules : List (Nat × Nat)) :
    List Instruction → Option (List Instruction × List (Nat × Nat))
  | [] => some ([], rules)
  | inst :: rest =>
    match inst.operands.head? with
    | none => none
    | some (Operand.LiteralString s) =>
      match inst.result_id with
      | none => none
      | some rid =>
        match alookup ext_to_id s with
        | none =>
          (importsLoop ((s, rid) :: ext_to_id) rules rest).map
            (fun p => (inst :: p.1, p.2))
        | some canon =>
          if (alookup rules rid).isSome then none
          else
            (importsLoop ext_to_id ((rid, canon) :: rules) rest).map
              (fun p => (nopInst :: p.1, p.2))
    | some _ =>
      (importsLoop ext_to_id rules rest).map (fun p => (inst :: p.1, p.2))

/-- The rewrite step of `remove_duplicate_ext_inst_imports`
(duplicates.rs:49): for an `OpExtInst` instruction, push its first operand
(the external-set reference) through the rewrite rules when it is an
`IdRef`; every other instruction passes through unchanged.  Indexing
`inst.operands[0]` of an `OpExtInst` without operands panics. -/
def rewriteExtInstOp (rules : List (Nat × Nat)) (inst : Instruction) :
    Option Instruction :=
  if inst.opcode = Op.ExtInst then
    match inst.operands with
    | [] => none
    | op :: rest =>
      match op with
      | Operand.IdRef id =>
        some { inst with operands := Operand.IdRef (lookupD rules id) :: rest }
      | _ => some inst
  else some inst

/-- Option-valued map over a list (sequencing of fallible per-instruction
rewrites; `none` as soon as one element fails). -/
def optionMapList {α β : Type} (f : α → Option β) : List α → Option (List β)
  | [] => some []
  | a :: l =>
    match f a, optionMapList f l with
    | some b, some bs => some (b :: bs)
    | _, _ => none

/-- `remove_duplicate_ext_inst_imports`: deduplicate the import section by
name, drop the `OpNop` markers (`retain`), then rewrite the external-set
operand of every `OpExtInst` in the whole module. -/
def remove_duplicate_ext_inst_imports (m : SpvModule) : Option SpvModule :=
  match importsLoop [] [] m.ext_inst_imports with
  | none => none
  | some (processed, rules) =>
    let kept := processed.filter (fun i => i.opcode ≠ Op.Nop)
    match optionMapList (rewriteExtInstOp rules) m.capabilities,
        optionMapList (rewriteExtInstOp rules) kept,
        optionMapList (rewriteExtInstOp rules) m.types_global_values,
        optionMapList (rewriteExtInstOp rules) m.functions with
    | some caps, some imports, some tys, some fns =>
      some ⟨caps, imports, tys, fns⟩
    | _, _, _, _ => none

/-! ### remove_duplicate_types (duplicates.rs:59) -/

/-- Little-endian packing of a byte list into 32-bit words, as rspirv's
assembler does for literal strings (the trailing partial word is
zero-padded). -/
def packWords : List Nat → List Nat
  | [] => []
  | [b0] => [b0]
  | [b0, b1] => [b0 + b1 * 256]
  | [b0, b1, b2] => [b0 + b1 * 256 + b2 * 65536]
  | b0 :: b1 :: b2 :: b3 :: rest =>
    (b0 + b1 * 256 + b2 * 65536 + b3 * 16777216) :: packWords rest

/-- rspirv's word encoding of a literal string: UTF-8 bytes, a NUL
terminator, zero-padded to a word boundary. -/
def stringWords (s : String) : List Nat :=
  packWords (s.toUTF8.toList.map (fun b => b.toNat) ++ [0])

/-- rspirv's `Operand::assemble_into`: the 32-bit words an operand
contributes to a binary encoding. -/
def assembleOperand : Operand → List Nat
  | .IdRef id => [id]
  | .LiteralInt32 n => [n]
  | .LiteralInt64 n => [n % 4294967296, n / 4294967296]
  | .LiteralString s => stringWords s
  | .Capability c => [c]
  | .StorageClass s => [s]
  | .Dim d => [d]
  | .ImageFormat f => [f]
  | .AccessQualifier a => [a]

/-- One operand's contribution to the structural key (duplicates.rs:116):
an identifier reference that currently points at an unresolved forward
pointer is serialized as the placeholder `IdRef 0`; every other operand is
serialized as itself. -/
def serializeKeyOperand (unresolved : List Nat) (op : Operand) : List Nat :=
  match op with
  | Operand.IdRef id =>
    if id ∈ unresolved then assembleOperand (Operand.IdRef 0)
    else assembleOperand op
  | _ => assembleOperand op

/-- Concatenated key serialization of an operand list, in order. -/
def serializeOperands (unresolved : List Nat) : List Operand → List Nat
  | [] => []
  | op :: rest => serializeKeyOperand unresolved op ++ serializeOperands unresolved rest

/-- The structural key of an instruction (duplicates.rs:106..131): the
opcode's numeric value, the result type identifier when present, then the
serialization of every operand.  The instruction's own `result_id` is not
part of the key. -/
def instKey (unresolved : List Nat) (inst : Instruction) : List Nat :=
  inst.opcode.code ::
    ((match inst.result_type with
      | some id => [id]
      | none => []) ++ serializeOperands unresolved inst.operands)

/-- Mutable state of the `remove_duplicate_types` loop. -/
structure TState where
  rules : List (Nat × Nat)
  keys : List (List Nat × Nat)
  unresolved : List Nat

/-- The `OpTypePointer` check (duplicates.rs:91): when the opcode is
`TypePointer`, unwrap the result id (panic if absent) and drop it from the
unresolved forward-pointer set. -/
def updateUnresolved (s : TState) (inst : Instruction) : Option (List Nat) :=
  if inst.opcode = Op.TypePointer then
    match inst.result_id with
    | none => none
    | some rid => some (s.unresolved.filter (fun x => x != rid))
  else some s.unresolved

/-- The rewrite-key-match phase (duplicates.rs:104..148): canonicalize the
instruction through the rules built so far, build its structural key, and
either register it as canonical (vacant) or record a rewrite rule and
replace it with `OpNop` (occupied; the `assert!(old_value.is_none())` is
the `none` branch on an already-mapped result id). -/
def keyPhase (rules : List (Nat × Nat)) (keys : List (List Nat × Nat))
    (unresolved : List Nat) (inst : Instruction) :
    Option (Instruction × List (Nat × Nat) × List (List Nat × Nat)) :=
  let inst' := rewrite_inst_with_rules rules inst
  let key := instKey unresolved inst'
  match alookup keys key with
  | none =>
    match inst'.result_id with
    | none => none
    | some rid => some (inst', rules, (key, rid) :: keys)
  | some canon =>
    match inst'.result_id with
    | none => none
    | some rid =>
      if (alookup rules rid).isSome then none
      else some (nopInst, (rid, canon) :: rules, keys)

/-- The non-forward-pointer path of one iteration of the
`remove_duplicate_types` loop. -/
def typeStepMain (s : TState) (inst : Instruction) :
    Option (Instruction × TState) :=
  match updateUnresolved s inst with
  | none => none
  | some unresolved =>
    match keyPhase s.rules s.keys unresolved inst with
    | none => none
    | some (out, rules, keys) => some (out, ⟨rules, keys, unresolved⟩)

/-- One iteration of the `remove_duplicate_types` loop (duplicates.rs:84):
an `OpTypeForwardPointer` whose first operand is an `IdRef` registers it
as unresolved and is passed through untouched (`continue`); indexing the
first operand of an operand-less instruction panics; everything else goes
through the rewrite/key/match phase. -/
def typeStep (s : TState) (inst : Instruction) : Option (Instruction × TState) :=
  if inst.opcode = Op.TypeForwardPointer then
    match inst.operands.head? with
    | none => none
    | some (Operand.IdRef id) =>
      some (inst, ⟨s.rules, s.keys, id :: s.unresolved⟩)
    | some _ => typeStepMain s inst
  else typeStepMain s inst

/-- The main loop of `remove_duplicate_types` over the types/global-values
section, returning the processed section (still containing the `OpNop`
markers) and the final state. -/
def typesLoop (s : TState) : List Instruction → Option (List Instruction × TState)
  | [] => some ([], s)
  | inst :: rest =>
    match typeStep s inst with
    | none => none
    | some (inst', s') =>
      match typesLoop s' rest with
      | none => none
      | some (l, sF) => some (inst' :: l, sF)

/-- `remove_duplicate_types`, additionally exposing the final rewrite
rules (the source keeps them in a local; returning them alongside the
module lets theorems speak about the deleted-to-canonical mapping):
run the loop, drop the `OpNop` markers (`retain`), then apply the rules to
every instruction of the whole module (`all_inst_iter_mut`). -/
def dedupTypesRun (m : SpvModule) : Option (SpvModule × List (Nat × Nat)) :=
  match typesLoop ⟨[], [], []⟩ m.types_global_values with
  | none => none
  | some (processed, s) =>
    let kept := processed.filter (fun i => i.opcode ≠ Op.Nop)
    some
      ({ capabilities := m.capabilities.map (rewrite_inst_with_rules s.rules),
         ext_inst_imports := m.ext_inst_imports.map (rewrite_inst_with_rules s.rules),
         types_global_values := kept.map (rewrite_inst_with_rules s.rules),
         functions := m.functions.map (rewrite_inst_with_rules s.rules) },
        s.rules)

/-- `remove_duplicate_types` proper. -/
def remove_duplicate_types (m : SpvModule) : Option SpvModule :=
  (dedupTypesRun m).map (fun p => p.1)

/-! ### The type model (src/rspirv-linker/src/ty.rs) -/

/-- `ScalarType` (ty.rs:5): one variant per non-composite type opcode.
Storage classes are carried as their numeric words. -/
inductive ScalarType
  | Void
  | Bool
  | Int (width : Nat) (signed : Bool)
  | Float (width : Nat)
  | Opaque (name : String)
  | Event
  | DeviceEvent
  | ReserveId
  | Queue
  | Pipe
  | ForwardPointer (storage_class : Nat)
  | PipeStorage
  | NamedBarrier
  | Sampler

/-- `AggregateType` (ty.rs:97). -/
inductive AggregateType
  | Scalar (ty : ScalarType)
  | Array (ty : AggregateType) (len : Nat)
  | Pointer (ty : AggregateType) (storage_class : Nat)
  | Image (ty : AggregateType) (dim : Nat) (depth : Nat) (arrayed : Nat)
      (multi_sampled : Nat) (sampled : Nat) (format : Nat) (access : Option Nat)
  | SampledImage (ty : AggregateType)
  | Aggregate (elems : List AggregateType)
  | Function (params : List AggregateType) (ret : AggregateType)

/-- Result of a translation step: `ok` is Rust's `Some(ty)`, `notType` is
Rust's `None` ("not a type", distinguished from failure by callers), and
`fatal` is a panic (`assert!`, `expect`, `panic!`, `unwrap`, out-of-bounds
indexing, or a definition lookup on a non-reference operand). -/
inductive TransResult (α : Type)
  | ok (a : α)
  | notType
  | fatal

/-- `trans_scalar_type` (ty.rs:22): dispatch on the opcode; a matched
opcode with a wrong operand shape panics; an unmatched opcode yields
`notType` (Rust's `None`). -/
def trans_scalar_type (inst : Instruction) : TransResult ScalarType :=
  match inst.opcode with
  | Op.TypeVoid => .ok .Void
  | Op.TypeBool => .ok .Bool
  | Op.TypeEvent => .ok .Event
  | Op.TypeDeviceEvent => .ok .DeviceEvent
  | Op.TypeReserveId => .ok .ReserveId
  | Op.TypeQueue => .ok .Queue
  | Op.TypePipe => .ok .Pipe
  | Op.TypePipeStorage => .ok .PipeStorage
  | Op.TypeNamedBarrier => .ok .NamedBarrier
  | Op.TypeSampler => .ok .Sampler
  | Op.TypeForwardPointer =>
    match inst.operands.head? with
    | some (Operand.StorageClass s) => .ok (.ForwardPointer s)
    | _ => .fatal
  | Op.TypeInt =>
    match inst.operands.head? with
    | some (Operand.LiteralInt32 w) =>
      match inst.operands[1]? with
      | some (Operand.LiteralInt32 s) => .ok (.Int w (s ≠ 0))
      | _ => .fatal
    | _ => .fatal
  | Op.TypeFloat =>
    match inst.operands.head? with
    | some (Operand.LiteralInt32 w) => .ok (.Float w)
    | _ => .fatal
  | Op.TypeOpaque =>
    match inst.operands.head? with
    | some (Operand.LiteralString s) => .ok (.Opaque s)
    | _ => .fatal
  | _ => .notType

/-- The Definition Lookup collaborator (spec §6): total over the
identifiers produced within a module. -/
def DefAnalyzer : Type := Nat → Instruction

/-- Modelled from the spec: `DefAnalyzer::op_def` (declared in the
linker's lib.rs, which is not part of the provided sources) returns the
instruction defining the identifier referenced by an operand; a
non-reference operand is a fatal lookup error. -/
def op_def (d : DefAnalyzer) (op : Operand) : Option Instruction :=
  match op with
  | Operand.IdRef id => some (d id)
  | _ => none

/-- Modelled from the spec: the literal accessor `extract_literal_int_as_u64`
(spec §6 `as_u64`; declared in the linker's lib.rs, which is not part of
the provided sources) reads an integer literal out of an operand and fails
fatally on any non-literal shape. -/
def extract_literal_int_as_u64 : Operand → Option Nat
  | Operand.LiteralInt32 n => some n
  | Operand.LiteralInt64 n => some n
  | _ => none

/-- Modelled from the spec: the literal accessor `extract_literal_u32`
(spec §6 `as_u32`; declared in the linker's lib.rs, which is not part of
the provided sources). -/
def extract_literal_u32 : Operand → Option Nat
  | Operand.LiteralInt32 n => some n
  | _ => none

/-- Translate the members of an `OpTypeStruct` / the parameters of an
`OpTypeFunction` in order: each operand is looked up and recursively
translated; a member translating to `notType` is a fatal error
(`panic!("Expected type")`), and an inner panic propagates. -/
def transMembers (rec : Instruction → TransResult AggregateType)
    (d : DefAnalyzer) : List Operand → TransResult (List AggregateType)
  | [] => .ok []
  | op :: rest =>
    match op_def d op with
    | none => .fatal
    | some def_inst =>
      match rec def_inst with
      | .ok ty =>
        match transMembers rec d rest with
        | .ok tys => .ok (ty :: tys)
        | .notType => .fatal
        | .fatal => .fatal
      | .notType => .fatal
      | .fatal => .fatal

/-- `trans_aggregate_type` (ty.rs:124), with a fuel parameter making the
recursion through the definition-lookup collaborator well-founded (the
source assumes a reference-acyclic module; exhausted fuel is a fatal
result, matching the source's divergence-free precondition). -/
def trans_aggregate_type : Nat → DefAnalyzer → Instruction → TransResult AggregateType
  | 0, _, _ => .fatal
  | fuel + 1, d, inst =>
    match inst.opcode with
    | Op.TypeArray =>
      match inst.operands[1]? with
      | none => .fatal
      | some op1 =>
        match op_def d op1 with
        | none => .fatal
        | some len_def =>
          if len_def.opcode = Op.Constant then
            match len_def.operands.head? with
            | none => .fatal
            | some len_op =>
              match extract_literal_int_as_u64 len_op with
              | none => .fatal
              | some len_value =>
                match inst.operands.head? with
                | none => .fatal
                | some op0 =>
                  match op_def d op0 with
                  | none => .fatal
                  | some el_def =>
                    match trans_aggregate_type fuel d el_def with
                    | .ok ty => .ok (.Array ty len_value)
                    | _ => .fatal
          else .fatal
    | Op.TypePointer =>
      match inst.operands.head? with
      | some (Operand.StorageClass sc) =>
        match inst.operands[1]? with
        | none => .fatal
        | some op1 =>
          match op_def d op1 with
          | none => .fatal
          | some el_def =>
            match trans_aggregate_type fuel d el_def with
            | .ok ty => .ok (.Pointer ty sc)
            | _ => .fatal
      | _ => .fatal
    | Op.TypeRuntimeArray =>
      match inst.operands.head? with
      | none => .fatal
      | some op0 =>
        match op_def d op0 with
        | none => .fatal
        | some el_def =>
          match trans_aggregate_type fuel d el_def with
          | .ok ty => .ok (.Aggregate [ty])
          | .notType => .ok (.Aggregate [])
          | .fatal => .fatal
    | Op.TypeVector =>
      match inst.operands.head? with
      | none => .fatal
      | some op0 =>
        match op_def d op0 with
        | none => .fatal
        | some el_def =>
          match trans_aggregate_type fuel d el_def with
          | .ok ty => .ok (.Aggregate [ty])
          | .notType => .ok (.Aggregate [])
          | .fatal => .fatal
    | Op.TypeMatrix =>
      match inst.operands.head? with
      | none => .fatal
      | some op0 =>
        match op_def d op0 with
        | none => .fatal
        | some el_def =>
          match trans_aggregate_type fuel d el_def with
          | .ok ty => .ok (.Aggregate [ty])
          | .notType => .ok (.Aggregate [])
          | .fatal => .fatal
    | Op.TypeSampledImage =>
      match inst.operands.head? with
      | none => .fatal
      | some op0 =>
        match op_def d op0 with
        | none => .fatal
        | some el_def =>
          match trans_aggregate_type fuel d el_def with
          | .ok ty => .ok (.Aggregate [ty])
          | .notType => .ok (.Aggregate [])
          | .fatal => .fatal
    | Op.TypeStruct =>
      match transMembers (trans_aggregate_type fuel d) d inst.operands with
      | .ok tys => .ok (.Aggregate tys)
      | _ => .fatal
    | Op.TypeFunction =>
      match inst.operands.head? with
      | none => .fatal
      | some op0 =>
        match op_def d op0 with
        | none => .fatal
        | some ret_def =>
          match trans_aggregate_type fuel d ret_def with
          | .ok ret =>
            match transMembers (trans_aggregate_type fuel d) d inst.operands.tail with
            | .ok params => .ok (.Function params ret)
            | _ => .fatal
          | _ => .fatal
    | Op.TypeImage =>
      match inst.operands.head? with
      | none => .fatal
      | some op0 =>
        match op_def d op0 with
        | none => .fatal
        | some el_def =>
          match trans_aggregate_type fuel d el_def with
          | .ok ty =>
            match inst.operands[1]? with
            | some (Operand.Dim dim) =>
              match inst.operands[2]?.bind extract_literal_u32,
                  inst.operands[3]?.bind extract_literal_u32,
                  inst.operands[4]?.bind extract_literal_u32,
                  inst.operands[5]?.bind extract_literal_u32 with
              | some depth, some arrayed, some ms, some sampled =>
                match inst.operands[6]? with
                | some (Operand.ImageFormat fmt) =>
                  .ok (.Image ty dim depth arrayed ms sampled fmt
                    (match inst.operands[7]? with
                     | some (Operand.AccessQualifier a) => some a
                     | _ => none))
                | _ => .fatal
              | _, _, _, _ => .fatal
            | _ => .fatal
          | _ => .fatal
    | _ =>
      match trans_scalar_type inst with
      | .ok ty => .ok (.Scalar ty)
      | .notType => .notType
      | .fatal => .fatal

/-! ### General helper lemmas -/

theorem alookup_eq_none_iff {α β : Type} [DecidableEq α]
    (l : List (α × β)) (a : α) :
    alookup l a = none ↔ a ∉ l.map Prod.fst := by
  induction l with
  | nil => simp [alookup]
  | cons p rest ih =>
    obtain ⟨k, v⟩ := p
    by_cases hk : k = a
    · subst hk
      simp [alookup]
    · simp [alookup, hk, ih, Ne.symm hk]

theorem alookup_isSome_iff {α β : Type} [DecidableEq α]
    (l : List (α × β)) (a : α) :
    (alookup l a).isSome = true ↔ a ∈ l.map Prod.fst := by
  rw [← not_iff_not, ← alookup_eq_none_iff l a]
  cases alookup l a <;> simp

theorem alookup_mem {α β : Type} [DecidableEq α]
    (l : List (α × β)) (a : α) (b : β) (h : alookup l a = some b) :
    (a, b) ∈ l := by
  induction l with
  | nil => simp [alookup] at h
  | cons p rest ih =>
    obtain ⟨k, v⟩ := p
    by_cases hk : k = a
    · subst hk
      simp [alookup] at h
      simp [h]
    · simp [alookup, hk] at h
      exact List.mem_cons_of_mem _ (ih h)

theorem lookupD_eq_of_alookup_eq (r1 r2 : List (Nat × Nat))
    (h : ∀ x, alookup r1 x = alookup r2 x) (id : Nat) :
    lookupD r1 id = lookupD r2 id := by
  simp [lookupD, h]

theorem rewriteOperand_nil (op : Operand) : rewriteOperand [] op = op := by
  cases op <;> rfl

theorem rewrite_inst_nil (inst : Instruction) :
    rewrite_inst_with_rules [] inst = inst := by
  cases inst with
  | mk opc rid rty ops =>
    simp only [rewrite_inst_with_rules,
      show rewriteOperand [] = id from funext rewriteOperand_nil, List.map_id]
    cases rty <;> simp [lookupD, alookup]

theorem rewrite_inst_opcode (rules : List (Nat × Nat)) (inst : Instruction) :
    (rewrite_inst_with_rules rules inst).opcode = inst.opcode := rfl

theorem rewrite_inst_result_id (rules : List (Nat × Nat)) (inst : Instruction) :
    (rewrite_inst_with_rules rules inst).result_id = inst.result_id := rfl

/-! ### Claim C6/C7: the capability deduplicator -/

/-- Whether an instruction's first operand is a capability-kind value. -/
def firstIsCapability (c : Instruction) : Bool :=
  match c.operands.head? with
  | some (Operand.Capability _) => true
  | _ => false

/-- Spec-side description of the capability pass, written from the claim:
remove an instruction exactly when its first operand is a capability
value that already occurred as the first operand of an earlier
instruction; keep everything else in order. -/
def capsSpecFilter (seen : List Nat) : List Instruction → List Instruction
  | [] => []
  | c :: rest =>
    match c.operands.head? with
    | some (Operand.Capability cap) =>
      if cap ∈ seen then capsSpecFilter seen rest
      else c :: capsSpecFilter (cap :: seen) rest
    | _ => c :: capsSpecFilter seen rest

theorem capsLoop_eq_spec (l : List Instruction) :
    ∀ seen, (∀ c ∈ l, c.operands ≠ []) →
    capsLoop seen l = some (capsSpecFilter seen l) := by
  induction l with
  | nil => intro seen _; rfl
  | cons c rest ih =>
    intro seen h
    have hc : c.operands ≠ [] := h c (List.mem_cons_self c rest)
    have hrest : ∀ x ∈ rest, x.operands ≠ [] :=
      fun x hx => h x (List.mem_cons_of_mem c hx)
    match hh : c.operands.head? with
    | none =>
      exact absurd (List.head?_eq_none_iff.mp hh) hc
    | some (Operand.Capability cap) =>
      by_cases hse : cap ∈ seen
      · simp [capsLoop, capsSpecFilter, hh, hse, ih seen hrest]
      · simp [capsLoop, capsSpecFilter, hh, hse, ih (cap :: seen) hrest]
    | some (Operand.IdRef id) =>
      simp [capsLoop, capsSpecFilter, hh, ih seen hrest]
    | some (Operand.LiteralInt32 n) =>
      simp [capsLoop, capsSpecFilter, hh, ih seen hrest]
    | some (Operand.LiteralInt64 n) =>
      simp [capsLoop, capsSpecFilter, hh, ih seen hrest]
    | some (Operand.LiteralString s) =>
      simp [capsLoop, capsSpecFilter, hh, ih seen hrest]
    | some (Operand.StorageClass s) =>
      simp [capsLoop, capsSpecFilter, hh, ih seen hrest]
    | some (Operand.Dim d) =>
      simp [capsLoop, capsSpecFilter, hh, ih seen hrest]
    | some (Operand.ImageFormat f) =>
      simp [capsLoop, capsSpecFilter, hh, ih seen hrest]
    | some (Operand.AccessQualifier a) =>
      simp [capsLoop, capsSpecFilter, hh, ih seen hrest]

theorem capsSpecFilter_sublist (l : List Instruction) :
    ∀ seen, List.Sublist (capsSpecFilter seen l) l := by
  induction l with
  | nil => intro seen; simp [capsSpecFilter]
  | cons c rest ih =>
    intro seen
    unfold capsSpecFilter
    match hh : c.operands.head? with
    | some (Operand.Capability cap) =>
      by_cases hse : cap ∈ seen
      · simp only [hse, if_true]
        exact List.Sublist.cons c (ih seen)
      · simp only [hse, if_false]
        exact List.Sublist.cons₂ c (ih (cap :: seen))
    | none => exact List.Sublist.cons₂ c (ih seen)
    | some (Operand.IdRef id) => exact List.Sublist.cons₂ c (ih seen)
    | some (Operand.LiteralInt32 n) => exact List.Sublist.cons₂ c (ih seen)
    | some (Operand.LiteralInt64 n) => exact List.Sublist.cons₂ c (ih seen)
    | some (Operand.LiteralString s) => exact List.Sublist.cons₂ c (ih seen)
    | some (Operand.StorageClass s) => exact List.Sublist.cons₂ c (ih seen)
    | some (Operand.Dim d) => exact List.Sublist.cons₂ c (ih seen)
    | some (Operand.ImageFormat f) => exact List.Sublist.cons₂ c (ih seen)
    | some (Operand.AccessQualifier a) => exact List.Sublist.cons₂ c (ih seen)

theorem capsSpecFilter_keeps_noncap (l : List Instruction) :
    ∀ seen c, c ∈ l → firstIsCapability c = false →
    c ∈ capsSpecFilter seen l := by
  induction l with
  | nil => intro seen c hc; simp at hc
  | cons x rest ih =>
    intro seen c hc hcap
    rcases List.mem_cons.mp hc with hx | hx
    · subst hx
      unfold capsSpecFilter
      match hh : c.operands.head? with
      | some (Operand.Capability cap) =>
        simp [firstIsCapability, hh] at hcap
      | none => exact List.mem_cons_self _ _
      | some (Operand.IdRef id) => exact List.mem_cons_self _ _
      | some (Operand.LiteralInt32 n) => exact List.mem_cons_self _ _
      | some (Operand.LiteralInt64 n) => exact List.mem_cons_self _ _
      | some (Operand.LiteralString s) => exact List.mem_cons_self _ _
      | some (Operand.StorageClass s) => exact List.mem_cons_self _ _
      | some (Operand.Dim d) => exact List.mem_cons_self _ _
      | some (Operand.ImageFormat f) => exact List.mem_cons_self _ _
      | some (Operand.AccessQualifier a) => exact List.mem_cons_self _ _
    · unfold capsSpecFilter
      match hh : x.operands.head? with
      | some (Operand.Capability cap) =>
        by_cases hse : cap ∈ seen
        · simpa [hse] using ih seen c hx hcap
        · simp only [hse, if_false]
          exact List.mem_cons_of_mem _ (ih (cap :: seen) c hx hcap)
      | none => exact List.mem_cons_of_mem _ (ih seen c hx hcap)
      | some (Operand.IdRef id) => exact List.mem_cons_of_mem _ (ih seen c hx hcap)
      | some (Operand.LiteralInt32 n) => exact List.mem_cons_of_mem _ (ih seen c hx hcap)
      | some (Operand.LiteralInt64 n) => exact List.mem_cons_of_mem _ (ih seen c hx hcap)
      | some (Operand.LiteralString s) => exact List.mem_cons_of_mem _ (ih seen c hx hcap)
      | some (Operand.StorageClass s) => exact List.mem_cons_of_mem _ (ih seen c hx hcap)
      | some (Operand.Dim d) => exact List.mem_cons_of_mem _ (ih seen c hx hcap)
      | some (Operand.ImageFormat f) => exact List.mem_cons_of_mem _ (ih seen c hx hcap)
      | some (Operand.AccessQualifier a) => exact List.mem_cons_of_mem _ (ih seen c hx hcap)

/-- C6: for every capability section (of a module whose capability
instructions each carry at least one operand, per the data model's
well-formed-operand-shape assumption), `remove_duplicate_capablities`
removes exactly those instructions whose first operand is a capability
value that already occurred as the first operand of an earlier
instruction, preserves the relative order of the survivors, never removes
an instruction whose first operand is not a capability-kind value, and
modifies no other section of the module. -/
theorem C6_capability_dedup (m : SpvModule)
    (h : ∀ c ∈ m.capabilities, c.operands ≠ []) :
    ∃ m', remove_duplicate_capablities m = some m' ∧
      m'.capabilities = capsSpecFilter [] m.capabilities ∧
      List.Sublist m'.capabilities m.capabilities ∧
      (∀ c ∈ m.capabilities, firstIsCapability c = false → c ∈ m'.capabilities) ∧
      m'.ext_inst_imports = m.ext_inst_imports ∧
      m'.types_global_values = m.types_global_values ∧
      m'.functions = m.functions := by
  refine ⟨{ m with capabilities := capsSpecFilter [] m.capabilities }, ?_, rfl,
    capsSpecFilter_sublist m.capabilities [],
    fun c hc hcap => capsSpecFilter_keeps_noncap m.capabilities [] c hc hcap,
    rfl, rfl, rfl⟩
  simp [remove_duplicate_capablities, capsLoop_eq_spec m.capabilities [] h]

/-- Witness for C6 at a concrete module: two duplicate capability
declarations, one distinct one, and one non-capability instruction. -/
theorem C6_capability_dedup_witness :
    ∃ m', remove_duplicate_capablities
        ⟨[⟨Op.Capability, none, none, [Operand.Capability 5]⟩,
          ⟨Op.Capability, none, none, [Operand.Capability 5]⟩,
          ⟨Op.Capability, none, none, [Operand.Capability 7]⟩,
          ⟨Op.Nop, none, none, [Operand.LiteralInt32 3]⟩], [], [],
          [⟨Op.ExtInst, some 9, some 1, [Operand.IdRef 2]⟩]⟩ = some m' ∧
      m'.capabilities = capsSpecFilter []
        [⟨Op.Capability, none, none, [Operand.Capability 5]⟩,
         ⟨Op.Capability, none, none, [Operand.Capability 5]⟩,
         ⟨Op.Capability, none, none, [Operand.Capability 7]⟩,
         ⟨Op.Nop, none, none, [Operand.LiteralInt32 3]⟩] ∧
      List.Sublist m'.capabilities
        [⟨Op.Capability, none, none, [Operand.Capability 5]⟩,
         ⟨Op.Capability, none, none, [Operand.Capability 5]⟩,
         ⟨Op.Capability, none, none, [Operand.Capability 7]⟩,
         ⟨Op.Nop, none, none, [Operand.LiteralInt32 3]⟩] ∧
      (∀ c ∈ [⟨Op.Capability, none, none, [Operand.Capability 5]⟩,
         ⟨Op.Capability, none, none, [Operand.Capability 5]⟩,
         ⟨Op.Capability, none, none, [Operand.Capability 7]⟩,
         (⟨Op.Nop, none, none, [Operand.LiteralInt32 3]⟩ : Instruction)],
         firstIsCapability c = false → c ∈ m'.capabilities) ∧
      m'.ext_inst_imports = [] ∧
      m'.types_global_values = ([] : List Instruction) ∧
      m'.functions = [⟨Op.ExtInst, some 9, some 1, [Operand.IdRef 2]⟩] :=
  C6_capability_dedup _ (by decide)

/-- C7 counterexample input: a capability section holding an instruction
with no operands at all. -/
def capsNoOperandModule : SpvModule :=
  ⟨[⟨Op.Nop, none, none, []⟩], [], [], []⟩

/-- C7 is false as stated: on a capability section containing an
arbitrary instruction with zero operands, `remove_duplicate_capablities`
indexes `c.operands[0]` out of bounds and aborts (modelled as `none`)
rather than completing. -/
theorem C7_counterexample :
    remove_duplicate_capablities capsNoOperandModule = none := rfl

/-- C7 amended: `remove_duplicate_capablities` completes without a fatal
error on every capability section — including the empty one — whose
instructions each carry at least one operand (the data model's
well-formed-operand-shape assumption; an instruction with no operands
makes the `c.operands[0]` access abort). -/
theorem C7_no_failure_on_wellformed (m : SpvModule)
    (h : ∀ c ∈ m.capabilities, c.operands ≠ []) :
    (remove_duplicate_capablities m).isSome := by
  simp [remove_duplicate_capablities, capsLoop_eq_spec m.capabilities [] h]

/-- Witness for the amended C7, covering in particular the empty
section. -/
theorem C7_no_failure_witness :
    (remove_duplicate_capablities ⟨[], [], [], []⟩).isSome ∧
      (remove_duplicate_capablities
        ⟨[⟨Op.Capability, none, none, [Operand.Capability 5]⟩,
          ⟨Op.Capability, none, none, [Operand.Capability 5]⟩], [], [], []⟩).isSome :=
  ⟨C7_no_failure_on_wellformed _ (by decide),
   C7_no_failure_on_wellformed _ (by decide)⟩

/-- C8: the `OpExtInst` rewrite step of
`remove_duplicate_ext_inst_imports` is frame-exact: an instruction of any
other opcode is returned unchanged, and for an `OpExtInst` instruction
everything but the first operand — opcode, result id, result type, and
all remaining operands — is unchanged (the operand count included). -/
theorem rewriteExtInstOp_cases (rules : List (Nat × Nat))
    (inst inst' : Instruction)
    (h : rewriteExtInstOp rules inst = some inst') :
    inst' = inst ∨ ∃ id rest, inst.opcode = Op.ExtInst ∧
      inst.operands = Operand.IdRef id :: rest ∧
      inst' = { inst with operands := Operand.IdRef (lookupD rules id) :: rest } := by
  by_cases hop : inst.opcode = Op.ExtInst
  · rw [rewriteExtInstOp, if_pos hop] at h
    rcases hops : inst.operands with _ | ⟨op, rest⟩
    · rw [hops] at h
      exact Option.noConfusion h
    · rw [hops] at h
      cases op
      next id =>
        exact Or.inr ⟨id, rest, hop, hops ▸ rfl, (Option.some.inj h).symm⟩
      all_goals exact Or.inl (Option.some.inj h).symm
  · rw [rewriteExtInstOp, if_neg hop] at h
    exact Or.inl (Option.some.inj h).symm

theorem C8_extinst_rewrite_frame (rules : List (Nat × Nat))
    (inst inst' : Instruction)
    (h : rewriteExtInstOp rules inst = some inst') :
    (inst.opcode ≠ Op.ExtInst → inst' = inst) ∧
    ((∀ id, inst.operands.head? ≠ some (Operand.IdRef id)) → inst' = inst) ∧
    inst'.opcode = inst.opcode ∧
    inst'.result_id = inst.result_id ∧
    inst'.result_type = inst.result_type ∧
    inst'.operands.tail = inst.operands.tail ∧
    inst'.operands.length = inst.operands.length := by
  rcases rewriteExtInstOp_cases rules inst inst' h with he | ⟨id, rest, hop, hops, he⟩
  · subst he
    exact ⟨fun _ => rfl, fun _ => rfl, rfl, rfl, rfl, rfl, rfl⟩
  · subst he
    refine ⟨fun hne => absurd hop hne, fun hno => ?_, rfl, rfl, rfl, by simp [hops],
      by simp [hops]⟩
    exact absurd (by rw [hops]; rfl) (hno id)

/-- Witness for C8: rewriting a concrete `OpExtInst` instruction whose
set reference `4` is mapped to `1`. -/
theorem C8_extinst_rewrite_frame_witness :
    (Instruction.mk Op.ExtInst (some 9) (some 3)
        [Operand.IdRef 4, Operand.LiteralInt32 8] ≠
      Instruction.mk Op.ExtInst (some 9) (some 3)
        [Operand.IdRef 1, Operand.LiteralInt32 8]) ∧
    ((Instruction.mk Op.ExtInst (some 9) (some 3)
        [Operand.IdRef 1, Operand.LiteralInt32 8]).opcode =
      Op.ExtInst ∧
     (Instruction.mk Op.ExtInst (some 9) (some 3)
        [Operand.IdRef 1, Operand.LiteralInt32 8]).result_id = some 9 ∧
     (Instruction.mk Op.ExtInst (some 9) (some 3)
        [Operand.IdRef 1, Operand.LiteralInt32 8]).result_type = some 3 ∧
     (Instruction.mk Op.ExtInst (some 9) (some 3)
        [Operand.IdRef 1, Operand.LiteralInt32 8]).operands.tail =
       [Operand.LiteralInt32 8] ∧
     (Instruction.mk Op.ExtInst (some 9) (some 3)
        [Operand.IdRef 1, Operand.LiteralInt32 8]).operands.length = 2) := by
  have h := C8_extinst_rewrite_frame [(4, 1)]
    (Instruction.mk Op.ExtInst (some 9) (some 3)
      [Operand.IdRef 4, Operand.LiteralInt32 8])
    (Instruction.mk Op.ExtInst (some 9) (some 3)
      [Operand.IdRef 1, Operand.LiteralInt32 8]) (by decide)
  exact ⟨by decide, h.2.2.1, h.2.2.2.1, h.2.2.2.2.1, h.2.2.2.2.2.1, h.2.2.2.2.2.2⟩

/-! ### Claims C9/C10: the aggregate-type translator -/

/-- C9: translating an `OpTypeArray` whose length-defining instruction is
not an `OpConstant` (in particular a specialization constant) is a fatal
error (`assert!(len_def.class.opcode == spirv::Op::Constant)`); otherwise
the translation returns an `Array` whose length is the literal extracted
from that constant and whose element type is the recursive translation of
the element-type operand. -/
theorem C9_array_length_from_constant (d : DefAnalyzer) (fuel : Nat)
    (inst : Instruction) (lid : Nat)
    (hop : inst.opcode = Op.TypeArray)
    (h1 : inst.operands[1]? = some (Operand.IdRef lid)) :
    ((d lid).opcode ≠ Op.Constant →
      trans_aggregate_type (fuel + 1) d inst = TransResult.fatal) ∧
    (∀ len_op len_value eid ty,
      (d lid).opcode = Op.Constant →
      (d lid).operands.head? = some len_op →
      extract_literal_int_as_u64 len_op = some len_value →
      inst.operands.head? = some (Operand.IdRef eid) →
      trans_aggregate_type fuel d (d eid) = TransResult.ok ty →
      trans_aggregate_type (fuel + 1) d inst =
        TransResult.ok (AggregateType.Array ty len_value)) := by
  obtain ⟨opc, rid, rty, ops⟩ := inst
  simp only at hop
  subst hop
  simp only at h1
  constructor
  · intro hne
    simp only [trans_aggregate_type, h1, op_def, if_neg hne]
  · intro len_op len_value eid ty hc h2 h3 h4 h5
    simp only at h4
    simp only [trans_aggregate_type, h1, op_def, if_pos hc, h2, h3, h4, h5]

/-- Witness lookup table for C9: id 1 defines a plain `OpConstant 5`, id 2
an `OpTypeInt 32 0`, id 3 an `OpSpecConstant 5`. -/
def defTableC9 : DefAnalyzer := fun n =>
  if n = 1 then ⟨Op.Constant, some 1, some 9, [Operand.LiteralInt32 5]⟩
  else if n = 2 then ⟨Op.TypeInt, some 2, none, [Operand.LiteralInt32 32, Operand.LiteralInt32 0]⟩
  else if n = 3 then ⟨Op.SpecConstant, some 3, some 9, [Operand.LiteralInt32 5]⟩
  else nopInst

/-- Witness for C9: the array whose length comes from the specialization
constant (id 3) translates fatally; the one whose length comes from the
plain constant (id 1) translates to `Array (u32) 5`. -/
theorem C9_array_length_from_constant_witness :
    trans_aggregate_type 2 defTableC9
        ⟨Op.TypeArray, some 5, none, [Operand.IdRef 2, Operand.IdRef 3]⟩ =
      TransResult.fatal ∧
    trans_aggregate_type 2 defTableC9
        ⟨Op.TypeArray, some 4, none, [Operand.IdRef 2, Operand.IdRef 1]⟩ =
      TransResult.ok (AggregateType.Array (AggregateType.Scalar (ScalarType.Int 32 false)) 5) :=
  ⟨(C9_array_length_from_constant defTableC9 1
      ⟨Op.TypeArray, some 5, none, [Operand.IdRef 2, Operand.IdRef 3]⟩ 3 rfl rfl).1
      (by decide),
   (C9_array_length_from_constant defTableC9 1
      ⟨Op.TypeArray, some 4, none, [Operand.IdRef 2, Operand.IdRef 1]⟩ 1 rfl rfl).2
     (Operand.LiteralInt32 5) 5 2 (AggregateType.Scalar (ScalarType.Int 32 false))
     rfl rfl rfl rfl rfl⟩

/-- C10: for a vector, matrix, runtime-array, or sampled-image type whose
referenced element type translates to "not a type", `trans_aggregate_type`
does not fail but returns an `Aggregate` with an empty element list
(`map_or_else(Vec::new, |v| vec![v])`); for a struct, an untranslatable
member is a fatal error (`panic!("Expected type")`). -/
theorem C10_empty_aggregate_on_untranslatable_element :
    (∀ (fuel : Nat) (d : DefAnalyzer) (inst : Instruction) (eid : Nat),
      (inst.opcode = Op.TypeVector ∨ inst.opcode = Op.TypeMatrix ∨
        inst.opcode = Op.TypeRuntimeArray ∨ inst.opcode = Op.TypeSampledImage) →
      inst.operands.head? = some (Operand.IdRef eid) →
      trans_aggregate_type fuel d (d eid) = TransResult.notType →
      trans_aggregate_type (fuel + 1) d inst =
        TransResult.ok (AggregateType.Aggregate [])) ∧
    (∀ (fuel : Nat) (d : DefAnalyzer) (rid rty : Option Nat) (eid : Nat),
      trans_aggregate_type fuel d (d eid) = TransResult.notType →
      trans_aggregate_type (fuel + 1) d
        ⟨Op.TypeStruct, rid, rty, [Operand.IdRef eid]⟩ = TransResult.fatal) := by
  constructor
  · intro fuel d inst eid hop h0 hel
    obtain ⟨opc, rid, rty, ops⟩ := inst
    simp only at hop h0
    rcases hop with h | h | h | h <;> subst h <;>
      simp only [trans_aggregate_type, h0, op_def, hel]
  · intro fuel d rid rty eid hel
    simp only [trans_aggregate_type, transMembers, op_def, hel]

/-- Witness for C10: with every definition resolving to `OpNop` (whose
translation is `notType`), a vector of an untranslatable element becomes
an empty `Aggregate` while a struct with the same member is fatal. -/
theorem C10_empty_aggregate_witness :
    trans_aggregate_type 2 (fun _ => nopInst)
        ⟨Op.TypeVector, some 1, none, [Operand.IdRef 7, Operand.LiteralInt32 4]⟩ =
      TransResult.ok (AggregateType.Aggregate []) ∧
    trans_aggregate_type 2 (fun _ => nopInst)
        ⟨Op.TypeStruct, some 2, none, [Operand.IdRef 7]⟩ = TransResult.fatal :=
  ⟨C10_empty_aggregate_on_untranslatable_element.1 1 (fun _ => nopInst)
      ⟨Op.TypeVector, some 1, none, [Operand.IdRef 7, Operand.LiteralInt32 4]⟩ 7
      (Or.inl rfl) rfl rfl,
   C10_empty_aggregate_on_untranslatable_element.2 1 (fun _ => nopInst)
      (some 2) none 7 rfl⟩

/-! ### Claim C4: the import deduplicator -/

/-- The declared result identifiers of a list of instructions. -/
def resultIds (l : List Instruction) : List Nat :=
  l.filterMap (fun i => i.result_id)

/-- Well-formedness of one import-section instruction, per the data
model's producer guarantees: not already an `OpNop`, at least one operand,
and a result id whenever the first operand is a literal name. -/
def WFImportInst (inst : Instruction) : Bool :=
  inst.opcode != Op.Nop &&
    match inst.operands.head? with
    | none => false
    | some (Operand.LiteralString _) => inst.result_id.isSome
    | some _ => true

/-- Spec-side description, written from the claim: keep the first import
declaration of each literal name, delete every later declaration of the
same name, and keep declarations whose first operand is not a literal
string. -/
def keepFirstByName (seen : List String) : List Instruction → List Instruction
  | [] => []
  | inst :: rest =>
    match inst.operands.head? with
    | some (Operand.LiteralString s) =>
      if s ∈ seen then keepFirstByName seen rest
      else inst :: keepFirstByName (s :: seen) rest
    | _ => inst :: keepFirstByName seen rest

/-- Spec-side description, written from the claim: the rewrite-map entries
recorded by the import deduplicator — each later declaration's identifier
mapped to the identifier of the first declaration of the same name. -/
def importCanon (seen : List (String × Nat)) : List Instruction → List (Nat × Nat)
  | [] => []
  | inst :: rest =>
    match inst.operands.head?, inst.result_id with
    | some (Operand.LiteralString s), some rid =>
      match alookup seen s with
      | none => importCanon ((s, rid) :: seen) rest
      | some canon => (rid, canon) :: importCanon seen rest
    | _, _ => importCanon seen rest

/-- Spec-side description, written from the claim: the rewrite applied to
every instruction — an external-instruction invocation has its first
operand pushed through the map if mapped and left untouched otherwise;
everything else is unchanged. -/
def extRewrite (rules : List (Nat × Nat)) (inst : Instruction) : Instruction :=
  if inst.opcode = Op.ExtInst then
    match inst.operands with
    | Operand.IdRef id :: rest =>
      { inst with operands := Operand.IdRef (lookupD rules id) :: rest }
    | _ => inst
  else inst

theorem resultIds_sublist_cons (inst : Instruction) (rest : List Instruction) :
    List.Sublist (resultIds rest) (resultIds (inst :: rest)) := by
  simp only [resultIds, List.filterMap_cons]
  cases inst.result_id with
  | none => exact List.Sublist.refl _
  | some r => exact List.Sublist.cons r (List.Sublist.refl _)

theorem importsLoop_spec (insts : List Instruction) :
    ∀ (seen : List (String × Nat)) (rules : List (Nat × Nat)),
    (∀ i ∈ insts, WFImportInst i = true) →
    (∀ r ∈ resultIds insts, r ∉ rules.map Prod.fst) →
    (resultIds insts).Nodup →
    ∃ processed,
      importsLoop seen rules insts =
        some (processed, (importCanon seen insts).reverse ++ rules) ∧
      processed.filter (fun i => i.opcode ≠ Op.Nop) =
        keepFirstByName (seen.map Prod.fst) insts := by
  induction insts with
  | nil => intro seen rules _ _ _; exact ⟨[], rfl, rfl⟩
  | cons inst rest ih =>
    intro seen rules hwf hfresh hnodup
    have hwf0 := hwf inst (List.mem_cons_self _ _)
    have hwfr : ∀ i ∈ rest, WFImportInst i = true :=
      fun i hi => hwf i (List.mem_cons_of_mem _ hi)
    have hsub := resultIds_sublist_cons inst rest
    have hfreshr : ∀ r ∈ resultIds rest, r ∉ rules.map Prod.fst :=
      fun r hr => hfresh r (hsub.subset hr)
    have hnodupr : (resultIds rest).Nodup := hnodup.sublist hsub
    have hne : inst.opcode ≠ Op.Nop := by
      have := (Bool.and_eq_true _ _).mp hwf0 |>.1
      simpa [bne_iff_ne] using this
    match hh : inst.operands.head? with
    | none =>
      exfalso
      rw [WFImportInst, hh] at hwf0
      simp at hwf0
    | some (Operand.LiteralString s) =>
      have hsome : inst.result_id.isSome = true := by
        have := (Bool.and_eq_true _ _).mp hwf0 |>.2
        rwa [hh] at this
      obtain ⟨rid, hrid⟩ := Option.isSome_iff_exists.mp hsome
      have hids : resultIds (inst :: rest) = rid :: resultIds rest := by
        simp [resultIds, List.filterMap_cons, hrid]
      have hridfresh : rid ∉ resultIds rest := by
        rw [hids] at hnodup
        exact (List.nodup_cons.mp hnodup).1
      match halo : alookup seen s with
      | none =>
        obtain ⟨processed, hloop, hfilter⟩ :=
          ih ((s, rid) :: seen) rules hwfr hfreshr hnodupr
        refine ⟨inst :: processed, ?_, ?_⟩
        · simp only [importsLoop, hh, hrid, halo, hloop]
          have hcn : importCanon seen (inst :: rest) = importCanon ((s, rid) :: seen) rest := by
            simp [importCanon, hh, hrid, halo]
          rw [hcn]
          rfl
        · have hsn : s ∉ seen.map Prod.fst := (alookup_eq_none_iff seen s).mp halo
          simp [List.filter_cons, hne, keepFirstByName, hh, hsn]
          simpa using hfilter
      | some canon =>
        have hnofire : alookup rules rid = none := by
          rw [alookup_eq_none_iff]
          exact hfresh rid (by rw [hids]; exact List.mem_cons_self _ _)
        have hfresh' : ∀ r ∈ resultIds rest, r ∉ ((rid, canon) :: rules).map Prod.fst := by
          intro r hr
          simp only [List.map_cons, List.mem_cons]
          rintro (h | h)
          · exact hridfresh (h ▸ hr)
          · exact hfreshr r hr h
        obtain ⟨processed, hloop, hfilter⟩ :=
          ih seen ((rid, canon) :: rules) hwfr hfresh' hnodupr
        refine ⟨nopInst :: processed, ?_, ?_⟩
        · simp only [importsLoop, hh, hrid, halo]
          rw [if_neg (by simp [hnofire]), hloop]
          have hcn : importCanon seen (inst :: rest) = (rid, canon) :: importCanon seen rest := by
            simp [importCanon, hh, hrid, halo]
          rw [hcn]
          simp [List.reverse_cons, List.append_assoc]
        · have hsn : s ∈ seen.map Prod.fst := by
            by_contra hc
            rw [← alookup_eq_none_iff] at hc
            rw [hc] at halo
            exact Option.noConfusion halo
          simp [List.filter_cons, nopInst, keepFirstByName, hh, hsn]
          simpa using hfilter
    | some (Operand.IdRef id) =>
      obtain ⟨processed, hloop, hfilter⟩ := ih seen rules hwfr hfreshr hnodupr
      refine ⟨inst :: processed, ?_, ?_⟩
      · simp only [importsLoop, hh, hloop]
        have hcn : importCanon seen (inst :: rest) = importCanon seen rest := by
          simp [importCanon, hh]
        rw [hcn]
        rfl
      · simp [List.filter_cons, hne, keepFirstByName, hh]
        simpa using hfilter
    | some (Operand.LiteralInt32 n) =>
      obtain ⟨processed, hloop, hfilter⟩ := ih seen rules hwfr hfreshr hnodupr
      refine ⟨inst :: processed, ?_, ?_⟩
      · simp only [importsLoop, hh, hloop]
        have hcn : importCanon seen (inst :: rest) = importCanon seen rest := by
          simp [importCanon, hh]
        rw [hcn]
        rfl
      · simp [List.filter_cons, hne, keepFirstByName, hh]
        simpa using hfilter
    | some (Operand.LiteralInt64 n) =>
      obtain ⟨processed, hloop, hfilter⟩ := ih seen rules hwfr hfreshr hnodupr
      refine ⟨inst :: processed, ?_, ?_⟩
      · simp only [importsLoop, hh, hloop]
        have hcn : importCanon seen (inst :: rest) = importCanon seen rest := by
          simp [importCanon, hh]
        rw [hcn]
        rfl
      · simp [List.filter_cons, hne, keepFirstByName, hh]
        simpa using hfilter
    | some (Operand.Capability c) =>
      obtain ⟨processed, hloop, hfilter⟩ := ih seen rules hwfr hfreshr hnodupr
      refine ⟨inst :: processed, ?_, ?_⟩
      · simp only [importsLoop, hh, hloop]
        have hcn : importCanon seen (inst :: rest) = importCanon seen rest := by
          simp [importCanon, hh]
        rw [hcn]
        rfl
      · simp [List.filter_cons, hne, keepFirstByName, hh]
        simpa using hfilter
    | some (Operand.StorageClass sc) =>
      obtain ⟨processed, hloop, hfilter⟩ := ih seen rules hwfr hfreshr hnodupr
      refine ⟨inst :: processed, ?_, ?_⟩
      · simp only [importsLoop, hh, hloop]
        have hcn : importCanon seen (inst :: rest) = importCanon seen rest := by
          simp [importCanon, hh]
        rw [hcn]
        rfl
      · simp [List.filter_cons, hne, keepFirstByName, hh]
        simpa using hfilter
    | some (Operand.Dim dd) =>
      obtain ⟨processed, hloop, hfilter⟩ := ih seen rules hwfr hfreshr hnodupr
      refine ⟨inst :: processed, ?_, ?_⟩
      · simp only [importsLoop, hh, hloop]
        have hcn : importCanon seen (inst :: rest) = importCanon seen rest := by
          simp [importCanon, hh]
        rw [hcn]
        rfl
      · simp [List.filter_cons, hne, keepFirstByName, hh]
        simpa using hfilter
    | some (Operand.ImageFormat f) =>
      obtain ⟨processed, hloop, hfilter⟩ := ih seen rules hwfr hfreshr hnodupr
      refine ⟨inst :: processed, ?_, ?_⟩
      · simp only [importsLoop, hh, hloop]
        have hcn : importCanon seen (inst :: rest) = importCanon seen rest := by
          simp [importCanon, hh]
        rw [hcn]
        rfl
      · simp [List.filter_cons, hne, keepFirstByName, hh]
        simpa using hfilter
    | some (Operand.AccessQualifier a) =>
      obtain ⟨processed, hloop, hfilter⟩ := ih seen rules hwfr hfreshr hnodupr
      refine ⟨inst :: processed, ?_, ?_⟩
      · simp only [importsLoop, hh, hloop]
        have hcn : importCanon seen (inst :: rest) = importCanon seen rest := by
          simp [importCanon, hh]
        rw [hcn]
        rfl
      · simp [List.filter_cons, hne, keepFirstByName, hh]
        simpa using hfilter

theorem importCanon_cons (seen : List (String × Nat)) (inst : Instruction)
    (rest : List Instruction) :
    importCanon seen (inst :: rest) = importCanon seen rest ∨
    ∃ s rid, inst.operands.head? = some (Operand.LiteralString s) ∧
      inst.result_id = some rid ∧
      ((alookup seen s = none ∧
        importCanon seen (inst :: rest) = importCanon ((s, rid) :: seen) rest) ∨
       (∃ canon, alookup seen s = some canon ∧
        importCanon seen (inst :: rest) = (rid, canon) :: importCanon seen rest)) := by
  rcases hh : inst.operands.head? with _ | op
  · left; simp [importCanon, hh]
  · cases op
    all_goals try (left; simp [importCanon, hh]; done)
    rename_i s
    rcases hrid : inst.result_id with _ | rid
    · left; simp [importCanon, hh, hrid]
    · rcases halo : alookup seen s with _ | canon
      · right
        exact ⟨s, rid, rfl, rfl, Or.inl ⟨halo, by simp [importCanon, hh, hrid, halo]⟩⟩
      · right
        exact ⟨s, rid, rfl, rfl,
          Or.inr ⟨canon, halo, by simp [importCanon, hh, hrid, halo]⟩⟩

theorem importCanon_fst_sublist (l : List Instruction) :
    ∀ seen, List.Sublist ((importCanon seen l).map Prod.fst) (resultIds l) := by
  induction l with
  | nil => intro seen; simp [importCanon, resultIds]
  | cons inst rest ih =>
    intro seen
    have hsub := resultIds_sublist_cons inst rest
    rcases importCanon_cons seen inst rest with he | ⟨s, rid, hh, hrid, hcase⟩
    · rw [he]; exact (ih seen).trans hsub
    · have hids : resultIds (inst :: rest) = rid :: resultIds rest := by
        simp [resultIds, List.filterMap_cons, hrid]
      rcases hcase with ⟨halo, he⟩ | ⟨canon, halo, he⟩
      · rw [he, hids]
        exact List.Sublist.cons rid (ih _)
      · rw [he, hids, List.map_cons]
        exact List.Sublist.cons₂ rid (ih seen)

theorem alookup_append_of_none {α β : Type} [DecidableEq α]
    (l1 l2 : List (α × β)) (a : α) (h : alookup l1 a = none) :
    alookup (l1 ++ l2) a = alookup l2 a := by
  induction l1 with
  | nil => rfl
  | cons p rest ih =>
    obtain ⟨k, v⟩ := p
    simp only [List.cons_append, alookup] at h ⊢
    by_cases hk : k = a
    · rw [if_pos hk] at h
      exact Option.noConfusion h
    · rw [if_neg hk] at h ⊢
      exact ih h

theorem alookup_append_of_some {α β : Type} [DecidableEq α]
    (l1 l2 : List (α × β)) (a : α) (b : β) (h : alookup l1 a = some b) :
    alookup (l1 ++ l2) a = some b := by
  induction l1 with
  | nil => simp [alookup] at h
  | cons p rest ih =>
    obtain ⟨k, v⟩ := p
    simp only [List.cons_append, alookup] at h ⊢
    by_cases hk : k = a
    · rw [if_pos hk] at h ⊢
      exact h
    · rw [if_neg hk] at h ⊢
      exact ih h

theorem alookup_reverse {α β : Type} [DecidableEq α]
    (l : List (α × β)) (h : (l.map Prod.fst).Nodup) (a : α) :
    alookup l.reverse a = alookup l a := by
  induction l with
  | nil => rfl
  | cons p rest ih =>
    obtain ⟨k, v⟩ := p
    simp only [List.map_cons, List.nodup_cons] at h
    obtain ⟨hk, hrest⟩ := h
    rw [List.reverse_cons]
    by_cases hka : k = a
    · subst hka
      have h1 : alookup rest k = none := (alookup_eq_none_iff _ _).mpr hk
      have h2 : alookup rest.reverse k = none := by rw [ih hrest]; exact h1
      rw [alookup_append_of_none _ _ _ h2]
      simp [alookup]
    · have hrhs : alookup ((k, v) :: rest) a = alookup rest a := by
        simp only [alookup]
        rw [if_neg hka]
      rw [hrhs]
      cases hl : alookup rest.reverse a with
      | some b =>
        rw [alookup_append_of_some _ _ _ _ hl, ← ih hrest, hl]
      | none =>
        rw [alookup_append_of_none _ _ _ hl, ← ih hrest, hl]
        simp [alookup, hka]

theorem rewriteExtInstOp_eq_extRewrite (r1 r2 : List (Nat × Nat))
    (inst : Instruction)
    (hagree : ∀ x, alookup r1 x = alookup r2 x)
    (hne : inst.opcode = Op.ExtInst → inst.operands ≠ []) :
    rewriteExtInstOp r1 inst = some (extRewrite r2 inst) := by
  by_cases hop : inst.opcode = Op.ExtInst
  · rw [rewriteExtInstOp, if_pos hop, extRewrite, if_pos hop]
    rcases hops : inst.operands with _ | ⟨op, rest⟩
    · exact absurd hops (hne hop)
    · cases op
      next id => simp [lookupD, hagree]
      all_goals rfl
  · rw [rewriteExtInstOp, if_neg hop, extRewrite, if_neg hop]

theorem optionMapList_eq_map {α β : Type} (f : α → Option β) (g : α → β)
    (l : List α) (h : ∀ a ∈ l, f a = some (g a)) :
    optionMapList f l = some (l.map g) := by
  induction l with
  | nil => rfl
  | cons a rest ih =>
    rw [optionMapList, h a (List.mem_cons_self a rest),
      ih (fun b hb => h b (List.mem_cons_of_mem a hb))]
    simp

theorem keepFirstByName_cons (seen : List String) (inst : Instruction)
    (rest : List Instruction) :
    keepFirstByName seen (inst :: rest) = keepFirstByName seen rest ∨
    ∃ seen', keepFirstByName seen (inst :: rest) =
      inst :: keepFirstByName seen' rest := by
  rcases hh : inst.operands.head? with _ | op
  · right; exact ⟨seen, by simp [keepFirstByName, hh]⟩
  · cases op
    all_goals try (right; refine ⟨seen, ?_⟩; simp [keepFirstByName, hh]; done)
    rename_i s
    by_cases hs : s ∈ seen
    · left; simp [keepFirstByName, hh, hs]
    · right; exact ⟨s :: seen, by simp [keepFirstByName, hh, hs]⟩

theorem keepFirstByName_subset (l : List Instruction) :
    ∀ seen x, x ∈ keepFirstByName seen l → x ∈ l := by
  induction l with
  | nil => intro seen x hx; simp [keepFirstByName] at hx
  | cons inst rest ih =>
    intro seen x hx
    rcases keepFirstByName_cons seen inst rest with he | ⟨seen', he⟩
    · rw [he] at hx
      exact List.mem_cons_of_mem _ (ih seen x hx)
    · rw [he] at hx
      rcases List.mem_cons.mp hx with h | h
      · exact h ▸ List.mem_cons_self _ _
      · exact List.mem_cons_of_mem _ (ih seen' x h)

/-- C4: under the producer guarantees (well-formed import instructions,
module-unique result ids among imports, and `OpExtInst` instructions
carrying at least one operand), `remove_duplicate_ext_inst_imports` keeps
the first import declaration of each literal name, deletes every later
declaration of the same name while recording a rewrite from its
identifier to the first declaration's identifier (`importCanon`), leaves
the import declarations without a literal-string first operand unchanged, and
rewrites the first operand of every `OpExtInst` instruction in the whole
module through that map (mapped identifiers replaced, all others left
untouched — `extRewrite`). -/
theorem C4_import_dedup (m : SpvModule)
    (hwf : ∀ i ∈ m.ext_inst_imports, WFImportInst i = true)
    (hnodup : (resultIds m.ext_inst_imports).Nodup)
    (hext : ∀ i ∈ m.allInsts, i.opcode = Op.ExtInst → i.operands ≠ []) :
    remove_duplicate_ext_inst_imports m = some
      { capabilities :=
          m.capabilities.map (extRewrite (importCanon [] m.ext_inst_imports)),
        ext_inst_imports := (keepFirstByName [] m.ext_inst_imports).map
          (extRewrite (importCanon [] m.ext_inst_imports)),
        types_global_values :=
          m.types_global_values.map (extRewrite (importCanon [] m.ext_inst_imports)),
        functions :=
          m.functions.map (extRewrite (importCanon [] m.ext_inst_imports)) } := by
  obtain ⟨processed, hloop, hfilter⟩ :=
    importsLoop_spec m.ext_inst_imports [] [] hwf (by simp) hnodup
  have hkeysnd : ((importCanon [] m.ext_inst_imports).map Prod.fst).Nodup :=
    (importCanon_fst_sublist m.ext_inst_imports []).nodup hnodup
  have hagree : ∀ x,
      alookup ((importCanon [] m.ext_inst_imports).reverse ++ []) x =
        alookup (importCanon [] m.ext_inst_imports) x := by
    intro x
    rw [List.append_nil, alookup_reverse _ hkeysnd]
  have hextC : ∀ i ∈ m.capabilities, i.opcode = Op.ExtInst → i.operands ≠ [] :=
    fun i hi => hext i (by simp [SpvModule.allInsts, hi])
  have hextI : ∀ i ∈ m.ext_inst_imports, i.opcode = Op.ExtInst → i.operands ≠ [] :=
    fun i hi => hext i (by simp [SpvModule.allInsts, hi])
  have hextT : ∀ i ∈ m.types_global_values, i.opcode = Op.ExtInst → i.operands ≠ [] :=
    fun i hi => hext i (by simp [SpvModule.allInsts, hi])
  have hextF : ∀ i ∈ m.functions, i.opcode = Op.ExtInst → i.operands ≠ [] :=
    fun i hi => hext i (by simp [SpvModule.allInsts, hi])
  have hcap :
      optionMapList (rewriteExtInstOp ((importCanon [] m.ext_inst_imports).reverse ++ []))
        m.capabilities =
      some (m.capabilities.map (extRewrite (importCanon [] m.ext_inst_imports))) :=
    optionMapList_eq_map _ _ _
      (fun i hi => rewriteExtInstOp_eq_extRewrite _ _ i hagree (hextC i hi))
  have himp :
      optionMapList (rewriteExtInstOp ((importCanon [] m.ext_inst_imports).reverse ++ []))
        (processed.filter (fun i => i.opcode ≠ Op.Nop)) =
      some ((keepFirstByName [] m.ext_inst_imports).map
        (extRewrite (importCanon [] m.ext_inst_imports))) := by
    rw [show processed.filter (fun i => i.opcode ≠ Op.Nop) =
        keepFirstByName [] m.ext_inst_imports from hfilter]
    exact optionMapList_eq_map _ _ _
      (fun i hi => rewriteExtInstOp_eq_extRewrite _ _ i hagree
        (hextI i (keepFirstByName_subset _ _ i hi)))
  have htys :
      optionMapList (rewriteExtInstOp ((importCanon [] m.ext_inst_imports).reverse ++ []))
        m.types_global_values =
      some (m.types_global_values.map (extRewrite (importCanon [] m.ext_inst_imports))) :=
    optionMapList_eq_map _ _ _
      (fun i hi => rewriteExtInstOp_eq_extRewrite _ _ i hagree (hextT i hi))
  have hfns :
      optionMapList (rewriteExtInstOp ((importCanon [] m.ext_inst_imports).reverse ++ []))
        m.functions =
      some (m.functions.map (extRewrite (importCanon [] m.ext_inst_imports))) :=
    optionMapList_eq_map _ _ _
      (fun i hi => rewriteExtInstOp_eq_extRewrite _ _ i hagree (hextF i hi))
  rw [remove_duplicate_ext_inst_imports, hloop]
  simp only [hcap, himp, htys, hfns]

/-- Witness module for C4: two imports named "GLSL.std.450" (ids 1, 2),
one named "OpenCL.std" (id 3), and a function body invoking an external
instruction through the superseded id 2. -/
def importWitnessModule : SpvModule :=
  ⟨[], [⟨Op.ExtInstImport, some 1, none, [Operand.LiteralString "GLSL.std.450"]⟩,
        ⟨Op.ExtInstImport, some 2, none, [Operand.LiteralString "GLSL.std.450"]⟩,
        ⟨Op.ExtInstImport, some 3, none, [Operand.LiteralString "OpenCL.std"]⟩],
    [],
    [⟨Op.ExtInst, some 10, some 8, [Operand.IdRef 2, Operand.LiteralInt32 7]⟩,
     ⟨Op.ExtInst, some 11, some 8, [Operand.IdRef 3, Operand.LiteralInt32 9]⟩]⟩

/-- Witness for C4: the second "GLSL.std.450" import is deleted, the
invocation through id 2 is repointed at id 1, and the invocation through
the surviving id 3 is untouched. -/
theorem C4_import_dedup_witness :
    remove_duplicate_ext_inst_imports importWitnessModule = some
      ⟨[],
       [⟨Op.ExtInstImport, some 1, none, [Operand.LiteralString "GLSL.std.450"]⟩,
        ⟨Op.ExtInstImport, some 3, none, [Operand.LiteralString "OpenCL.std"]⟩],
       [],
       [⟨Op.ExtInst, some 10, some 8, [Operand.IdRef 1, Operand.LiteralInt32 7]⟩,
        ⟨Op.ExtInst, some 11, some 8, [Operand.IdRef 3, Operand.LiteralInt32 9]⟩]⟩ := by
  have h := C4_import_dedup importWitnessModule (by decide) (by decide) (by decide)
  exact h.trans (by rfl)

/-! ### Claim C1: reference propagation of remove_duplicate_types -/

/-- Well-formedness of one types/global-values instruction, per the
module's producer guarantees: not already an `OpNop`; a forward-pointer
declaration names its pointer id with an `IdRef` first operand; every
other declaration carries a result id. -/
def WFTypeInst (inst : Instruction) : Bool :=
  inst.opcode != Op.Nop &&
    (if inst.opcode = Op.TypeForwardPointer then
      (match inst.operands.head? with
       | some (Operand.IdRef _) => true
       | _ => false)
     else inst.result_id.isSome)

/-- `inst` references the identifier `r`, through its result type or an
identifier-reference operand. -/
def InstReferences (inst : Instruction) (r : Nat) : Prop :=
  inst.result_type = some r ∨ ∃ op ∈ inst.operands, operand_idref op = some r

theorem resultIds_cons_some {inst : Instruction} {r : Nat}
    (h : inst.result_id = some r) (l : List Instruction) :
    resultIds (inst :: l) = r :: resultIds l := by
  simp [resultIds, List.filterMap_cons, h]

theorem resultIds_cons_none {inst : Instruction}
    (h : inst.result_id = none) (l : List Instruction) :
    resultIds (inst :: l) = resultIds l := by
  simp [resultIds, List.filterMap_cons, h]

theorem filter_nop_cons_keep {inst : Instruction} (h : inst.opcode ≠ Op.Nop)
    (l : List Instruction) :
    (inst :: l).filter (fun i => i.opcode ≠ Op.Nop) =
      inst :: l.filter (fun i => i.opcode ≠ Op.Nop) := by
  simp [List.filter_cons, h]

theorem filter_nop_cons_drop (l : List Instruction) :
    (nopInst :: l).filter (fun i => i.opcode ≠ Op.Nop) =
      l.filter (fun i => i.opcode ≠ Op.Nop) := by
  simp [List.filter_cons, nopInst]

theorem typeStep_fwdptr {s : TState} {inst : Instruction}
    (hwf : WFTypeInst inst = true) (hop : inst.opcode = Op.TypeForwardPointer) :
    ∃ id, inst.operands.head? = some (Operand.IdRef id) ∧
      typeStep s inst = some (inst, ⟨s.rules, s.keys, id :: s.unresolved⟩) := by
  rw [WFTypeInst, hop] at hwf
  simp only [if_pos] at hwf
  match hh : inst.operands.head? with
  | some (Operand.IdRef id) =>
    exact ⟨id, rfl, by rw [typeStep, if_pos hop, hh]⟩
  | none => rw [hh] at hwf; simp at hwf
  | some (Operand.LiteralInt32 n) => rw [hh] at hwf; simp at hwf
  | some (Operand.LiteralInt64 n) => rw [hh] at hwf; simp at hwf
  | some (Operand.LiteralString str) => rw [hh] at hwf; simp at hwf
  | some (Operand.Capability c) => rw [hh] at hwf; simp at hwf
  | some (Operand.StorageClass sc) => rw [hh] at hwf; simp at hwf
  | some (Operand.Dim dd) => rw [hh] at hwf; simp at hwf
  | some (Operand.ImageFormat f) => rw [hh] at hwf; simp at hwf
  | some (Operand.AccessQualifier a) => rw [hh] at hwf; simp at hwf

theorem typeStep_main_cases {s : TState} {inst : Instruction}
    (hwf : WFTypeInst inst = true) (hop : inst.opcode ≠ Op.TypeForwardPointer)
    (hfresh : ∀ r, inst.result_id = some r → r ∉ s.rules.map Prod.fst) :
    ∃ rid unresolved', inst.result_id = some rid ∧
      ((alookup s.keys (instKey unresolved' (rewrite_inst_with_rules s.rules inst)) = none ∧
        typeStep s inst = some (rewrite_inst_with_rules s.rules inst,
          ⟨s.rules,
           (instKey unresolved' (rewrite_inst_with_rules s.rules inst), rid) :: s.keys,
           unresolved'⟩)) ∨
       (∃ canon,
        alookup s.keys (instKey unresolved' (rewrite_inst_with_rules s.rules inst)) =
          some canon ∧
        typeStep s inst = some (nopInst,
          ⟨(rid, canon) :: s.rules, s.keys, unresolved'⟩))) := by
  have hrid : ∃ rid, inst.result_id = some rid := by
    rw [WFTypeInst, if_neg hop] at hwf
    have := (Bool.and_eq_true _ _).mp hwf |>.2
    exact Option.isSome_iff_exists.mp this
  obtain ⟨rid, hrid⟩ := hrid
  have hstep : typeStep s inst = typeStepMain s inst := by
    rw [typeStep, if_neg hop]
  have hupd : ∃ unresolved', updateUnresolved s inst = some unresolved' := by
    rw [updateUnresolved]
    by_cases hp : inst.opcode = Op.TypePointer
    · rw [if_pos hp, hrid]
      exact ⟨_, rfl⟩
    · rw [if_neg hp]
      exact ⟨_, rfl⟩
  obtain ⟨unresolved', hupd⟩ := hupd
  refine ⟨rid, unresolved', hrid, ?_⟩
  have hrid' : (rewrite_inst_with_rules s.rules inst).result_id = some rid := by
    rw [rewrite_inst_result_id]; exact hrid
  rw [hstep, typeStepMain, hupd]
  cases halo : alookup s.keys (instKey unresolved' (rewrite_inst_with_rules s.rules inst)) with
  | none =>
    left
    refine ⟨rfl, ?_⟩
    simp only [keyPhase, halo, hrid']
  | some canon =>
    right
    refine ⟨canon, rfl, ?_⟩
    have hno : alookup s.rules rid = none :=
      (alookup_eq_none_iff _ _).mpr (hfresh rid hrid)
    simp only [keyPhase, halo, hrid', hno, Option.isSome_none, Bool.false_eq_true,
      if_false]

theorem typesLoop_spec (insts : List Instruction) :
    ∀ (s : TState),
    (∀ i ∈ insts, WFTypeInst i = true) →
    (resultIds insts).Nodup →
    (∀ r ∈ resultIds insts, r ∉ s.rules.map Prod.fst) →
    (∀ r ∈ resultIds insts, r ∉ s.keys.map Prod.snd) →
    ∃ processed sF newRules,
      typesLoop s insts = some (processed, sF) ∧
      sF.rules = newRules ++ s.rules ∧
      (∀ r, r ∈ resultIds insts ↔
        (r ∈ newRules.map Prod.fst ∨
         r ∈ resultIds (processed.filter (fun i => i.opcode ≠ Op.Nop)))) ∧
      (∀ r ∈ newRules.map Prod.fst,
        r ∉ resultIds (processed.filter (fun i => i.opcode ≠ Op.Nop))) ∧
      (∀ p ∈ newRules, p.2 ∈ s.keys.map Prod.snd ∨
        p.2 ∈ resultIds (processed.filter (fun i => i.opcode ≠ Op.Nop))) ∧
      (∀ r ∈ sF.keys.map Prod.snd, r ∈ s.keys.map Prod.snd ∨
        r ∈ resultIds (processed.filter (fun i => i.opcode ≠ Op.Nop))) := by
  induction insts with
  | nil =>
    intro s _ _ _ _
    exact ⟨[], s, [], rfl, rfl, by simp [resultIds], by simp, by simp,
      fun r hr => Or.inl hr⟩
  | cons inst rest ih =>
    intro s hwf hnodup hfreshR hfreshK
    have hwf0 := hwf inst (List.mem_cons_self _ _)
    have hwfr : ∀ i ∈ rest, WFTypeInst i = true :=
      fun i hi => hwf i (List.mem_cons_of_mem _ hi)
    have hne : inst.opcode ≠ Op.Nop := by
      have := (Bool.and_eq_true _ _).mp hwf0 |>.1
      simpa [bne_iff_ne] using this
    have hsub := resultIds_sublist_cons inst rest
    have hnodupr : (resultIds rest).Nodup := hnodup.sublist hsub
    have hfreshRr : ∀ r ∈ resultIds rest, r ∉ s.rules.map Prod.fst :=
      fun r hr => hfreshR r (hsub.subset hr)
    have hfreshKr : ∀ r ∈ resultIds rest, r ∉ s.keys.map Prod.snd :=
      fun r hr => hfreshK r (hsub.subset hr)
    by_cases hop : inst.opcode = Op.TypeForwardPointer
    · -- forward-pointer declaration: registered and passed through
      obtain ⟨fid, hh, hstep⟩ := typeStep_fwdptr (s := s) hwf0 hop
      obtain ⟨processed, sF, newRules, hloop, hrules, hiff, hdisj, hran, hkeys⟩ :=
        ih ⟨s.rules, s.keys, fid :: s.unresolved⟩ hwfr hnodupr hfreshRr hfreshKr
      have hkept := filter_nop_cons_keep hne processed
      refine ⟨inst :: processed, sF, newRules, ?_, hrules, ?_, ?_, ?_, ?_⟩
      · simp only [typesLoop, hstep, hloop]
      · intro r
        cases hri : inst.result_id with
        | some rid =>
          rw [resultIds_cons_some hri, hkept, resultIds_cons_some hri]
          constructor
          · intro hr
            rcases List.mem_cons.mp hr with h | h
            · exact Or.inr (h ▸ List.mem_cons_self _ _)
            · rcases (hiff r).mp h with h' | h'
              · exact Or.inl h'
              · exact Or.inr (List.mem_cons_of_mem _ h')
          · rintro (h | h)
            · exact List.mem_cons_of_mem _ ((hiff r).mpr (Or.inl h))
            · rcases List.mem_cons.mp h with h' | h'
              · exact h' ▸ List.mem_cons_self _ _
              · exact List.mem_cons_of_mem _ ((hiff r).mpr (Or.inr h'))
        | none =>
          rw [resultIds_cons_none hri, hkept, resultIds_cons_none hri]
          exact hiff r
      · intro r hr
        cases hri : inst.result_id with
        | some rid =>
          rw [hkept, resultIds_cons_some hri]
          have hrr : r ∈ resultIds rest := (hiff r).mpr (Or.inl hr)
          have hridnotin : rid ∉ resultIds rest := by
            rw [resultIds_cons_some hri] at hnodup
            exact (List.nodup_cons.mp hnodup).1
          intro hmem
          rcases List.mem_cons.mp hmem with h | h
          · exact hridnotin (h ▸ hrr)
          · exact hdisj r hr h
        | none =>
          rw [hkept, resultIds_cons_none hri]
          exact hdisj r hr
      · intro p hp
        rcases hran p hp with h | h
        · exact Or.inl h
        · right
          rw [hkept]
          cases hri : inst.result_id with
          | some rid => rw [resultIds_cons_some hri]; exact List.mem_cons_of_mem _ h
          | none => rw [resultIds_cons_none hri]; exact h
      · intro r hr
        rcases hkeys r hr with h | h
        · exact Or.inl h
        · right
          rw [hkept]
          cases hri : inst.result_id with
          | some rid => rw [resultIds_cons_some hri]; exact List.mem_cons_of_mem _ h
          | none => rw [resultIds_cons_none hri]; exact h
    · -- ordinary declaration: rewrite, key, vacant or occupied
      obtain ⟨rid, unres', hri, hcases⟩ :=
        typeStep_main_cases hwf0 hop
          (fun r hr => hfreshR r (by
            rw [resultIds_cons_some hr]
            exact List.mem_cons_self _ _))
      have hids := resultIds_cons_some hri rest
      have hridnotin : rid ∉ resultIds rest := by
        rw [hids] at hnodup
        exact (List.nodup_cons.mp hnodup).1
      rcases hcases with ⟨halo, hstep⟩ | ⟨canon, halo, hstep⟩
      · -- vacant: the instruction survives as canonical
        have hK1 : ∀ r ∈ resultIds rest,
            r ∉ ((instKey unres' (rewrite_inst_with_rules s.rules inst), rid) ::
              s.keys).map Prod.snd := by
          intro r hr
          simp only [List.map_cons, List.mem_cons]
          rintro (h | h)
          · exact hridnotin (h ▸ hr)
          · exact hfreshKr r hr h
        obtain ⟨processed, sF, newRules, hloop, hrules, hiff, hdisj, hran, hkeys⟩ :=
          ih ⟨s.rules,
            (instKey unres' (rewrite_inst_with_rules s.rules inst), rid) :: s.keys,
            unres'⟩ hwfr hnodupr hfreshRr hK1
        have hne' : (rewrite_inst_with_rules s.rules inst).opcode ≠ Op.Nop := by
          rw [rewrite_inst_opcode]; exact hne
        have hri' : (rewrite_inst_with_rules s.rules inst).result_id = some rid := by
          rw [rewrite_inst_result_id]; exact hri
        have hkept := filter_nop_cons_keep hne' processed
        have hkids : resultIds ((rewrite_inst_with_rules s.rules inst :: processed).filter
            (fun i => i.opcode ≠ Op.Nop)) =
            rid :: resultIds (processed.filter (fun i => i.opcode ≠ Op.Nop)) := by
          rw [hkept]
          exact resultIds_cons_some hri' _
        refine ⟨rewrite_inst_with_rules s.rules inst :: processed, sF, newRules, ?_,
          hrules, ?_, ?_, ?_, ?_⟩
        · simp only [typesLoop, hstep, hloop]
        · intro r
          rw [hids, hkids]
          constructor
          · intro hr
            rcases List.mem_cons.mp hr with h | h
            · exact Or.inr (h ▸ List.mem_cons_self _ _)
            · rcases (hiff r).mp h with h' | h'
              · exact Or.inl h'
              · exact Or.inr (List.mem_cons_of_mem _ h')
          · rintro (h | h)
            · exact List.mem_cons_of_mem _ ((hiff r).mpr (Or.inl h))
            · rcases List.mem_cons.mp h with h' | h'
              · exact h' ▸ List.mem_cons_self _ _
              · exact List.mem_cons_of_mem _ ((hiff r).mpr (Or.inr h'))
        · intro r hr
          rw [hkids]
          have hrr : r ∈ resultIds rest := (hiff r).mpr (Or.inl hr)
          intro hmem
          rcases List.mem_cons.mp hmem with h | h
          · exact hridnotin (h ▸ hrr)
          · exact hdisj r hr h
        · intro p hp
          rcases hran p hp with h | h
          · simp only [List.map_cons, List.mem_cons] at h
            rcases h with h | h
            · right
              rw [hkids]
              exact h ▸ List.mem_cons_self _ _
            · exact Or.inl h
          · right
            rw [hkids]
            exact List.mem_cons_of_mem _ h
        · intro r hr
          rcases hkeys r hr with h | h
          · simp only [List.map_cons, List.mem_cons] at h
            rcases h with h | h
            · right
              rw [hkids]
              exact h ▸ List.mem_cons_self _ _
            · exact Or.inl h
          · right
            rw [hkids]
            exact List.mem_cons_of_mem _ h
      · -- occupied: the instruction is deleted and a rewrite rule recorded
        have hcanon : canon ∈ s.keys.map Prod.snd :=
          List.mem_map_of_mem Prod.snd (alookup_mem _ _ _ halo)
        have hR1 : ∀ r ∈ resultIds rest,
            r ∉ ((rid, canon) :: s.rules).map Prod.fst := by
          intro r hr
          simp only [List.map_cons, List.mem_cons]
          rintro (h | h)
          · exact hridnotin (h ▸ hr)
          · exact hfreshRr r hr h
        obtain ⟨processed, sF, newRules, hloop, hrules, hiff, hdisj, hran, hkeys⟩ :=
          ih ⟨(rid, canon) :: s.rules, s.keys, unres'⟩ hwfr hnodupr hR1 hfreshKr
        have hkept := filter_nop_cons_drop processed
        refine ⟨nopInst :: processed, sF, newRules ++ [(rid, canon)], ?_, ?_, ?_, ?_,
          ?_, ?_⟩
        · simp only [typesLoop, hstep, hloop]
        · rw [hrules]
          simp [List.append_assoc]
        · intro r
          rw [hids, hkept]
          simp only [List.map_append, List.mem_append, List.map_cons, List.map_nil]
          constructor
          · intro hr
            rcases List.mem_cons.mp hr with h | h
            · exact Or.inl (Or.inr (by simp [h]))
            · rcases (hiff r).mp h with h' | h'
              · exact Or.inl (Or.inl h')
              · exact Or.inr h'
          · rintro ((h | h) | h)
            · exact List.mem_cons_of_mem _ ((hiff r).mpr (Or.inl h))
            · simp only [List.mem_singleton] at h
              exact List.mem_cons.mpr (Or.inl h)
            · exact List.mem_cons_of_mem _ ((hiff r).mpr (Or.inr h))
        · intro r hr
          rw [hkept]
          simp only [List.map_append, List.mem_append, List.map_cons, List.map_nil,
            List.mem_singleton] at hr
          rcases hr with h | h
          · exact hdisj r h
          · intro hmem
            have : r ∈ resultIds rest := (hiff r).mpr (Or.inr hmem)
            exact hridnotin (h ▸ this)
        · intro p hp
          rw [hkept]
          rcases List.mem_append.mp hp with h | h
          · exact hran p h
          · simp only [List.mem_singleton] at h
            subst h
            exact Or.inl hcanon
        · intro r hr
          rw [hkept]
          exact hkeys r hr

theorem resultIds_map_rewrite (rules : List (Nat × Nat)) (l : List Instruction) :
    resultIds (l.map (rewrite_inst_with_rules rules)) = resultIds l := by
  unfold resultIds
  rw [List.filterMap_map]
  rfl

theorem references_rewrite (rules : List (Nat × Nat)) (inst : Instruction) (r' : Nat)
    (h : InstReferences (rewrite_inst_with_rules rules inst) r') :
    ∃ r0, InstReferences inst r0 ∧ r' = lookupD rules r0 := by
  rcases h with h | ⟨op', hop', hid⟩
  · simp only [rewrite_inst_with_rules] at h
    obtain ⟨r0, hr0m, hr0⟩ := Option.map_eq_some'.mp h
    exact ⟨r0, Or.inl hr0m, hr0.symm⟩
  · simp only [rewrite_inst_with_rules] at hop'
    obtain ⟨op, hop, rfl⟩ := List.mem_map.mp hop'
    cases op
    next id =>
      refine ⟨id, Or.inr ⟨Operand.IdRef id, hop, rfl⟩, ?_⟩
      simp [rewriteOperand, operand_idref] at hid
      exact hid.symm
    all_goals simp [rewriteOperand, operand_idref] at hid

theorem lookupD_not_in_dom (rules : List (Nat × Nat))
    (hdr : ∀ p ∈ rules, p.2 ∉ rules.map Prod.fst) (r0 : Nat) :
    lookupD rules r0 ∉ rules.map Prod.fst := by
  unfold lookupD
  cases hal : alookup rules r0 with
  | none => simpa using (alookup_eq_none_iff _ _).mp hal
  | some c => simpa using hdr (r0, c) (alookup_mem _ _ _ hal)

/-- C1: for a module whose types/global-values section satisfies the
pass's preconditions (well-formed instructions, producer-unique result
ids), `remove_duplicate_types` completes, the final sweep rewrites every
section through the final rewrite rules, the identifiers deleted by the
pass are exactly the domain of those rules, every rule maps a deleted
identifier to a surviving canonical one, and afterwards no instruction in
any section of the module — function bodies included — has a result-type
or identifier-reference operand equal to a deleted identifier. -/
theorem C1_no_references_to_deleted (m : SpvModule)
    (hwf : ∀ i ∈ m.types_global_values, WFTypeInst i = true)
    (hnodup : (resultIds m.types_global_values).Nodup) :
    ∃ m' rules, dedupTypesRun m = some (m', rules) ∧
      remove_duplicate_types m = some m' ∧
      m'.capabilities = m.capabilities.map (rewrite_inst_with_rules rules) ∧
      m'.ext_inst_imports = m.ext_inst_imports.map (rewrite_inst_with_rules rules) ∧
      m'.functions = m.functions.map (rewrite_inst_with_rules rules) ∧
      (∀ r, (r ∈ resultIds m.types_global_values ∧
             r ∉ resultIds m'.types_global_values) ↔ r ∈ rules.map Prod.fst) ∧
      (∀ p ∈ rules, p.1 ∈ resultIds m.types_global_values ∧
        p.1 ∉ resultIds m'.types_global_values ∧
        p.2 ∈ resultIds m'.types_global_values) ∧
      (∀ inst ∈ m'.allInsts, ∀ r, InstReferences inst r →
        ¬(r ∈ resultIds m.types_global_values ∧
          r ∉ resultIds m'.types_global_values)) := by
  obtain ⟨processed, sF, newRules, hloop, hrules, hiff, hdisj, hran, hkeys⟩ :=
    typesLoop_spec m.types_global_values ⟨[], [], []⟩ hwf hnodup (by simp) (by simp)
  rw [List.append_nil] at hrules
  subst hrules
  have hrun : dedupTypesRun m = some
      ({ capabilities := m.capabilities.map (rewrite_inst_with_rules sF.rules),
         ext_inst_imports := m.ext_inst_imports.map (rewrite_inst_with_rules sF.rules),
         types_global_values := (processed.filter (fun i => i.opcode ≠ Op.Nop)).map
           (rewrite_inst_with_rules sF.rules),
         functions := m.functions.map (rewrite_inst_with_rules sF.rules) },
        sF.rules) := by
    simp only [dedupTypesRun, hloop]
  have hkid : resultIds ((processed.filter (fun i => i.opcode ≠ Op.Nop)).map
      (rewrite_inst_with_rules sF.rules)) =
      resultIds (processed.filter (fun i => i.opcode ≠ Op.Nop)) :=
    resultIds_map_rewrite _ _
  have hranK : ∀ p ∈ sF.rules,
      p.2 ∈ resultIds (processed.filter (fun i => i.opcode ≠ Op.Nop)) := by
    intro p hp
    rcases hran p hp with h | h
    · simp at h
    · exact h
  have hdeleted : ∀ r, (r ∈ resultIds m.types_global_values ∧
      r ∉ resultIds (processed.filter (fun i => i.opcode ≠ Op.Nop))) ↔
      r ∈ sF.rules.map Prod.fst := by
    intro r
    constructor
    · rintro ⟨h1, h2⟩
      rcases (hiff r).mp h1 with h | h
      · exact h
      · exact absurd h h2
    · intro h
      exact ⟨(hiff r).mpr (Or.inl h), hdisj r h⟩
  have hdr : ∀ p ∈ sF.rules, p.2 ∉ sF.rules.map Prod.fst := by
    intro p hp hmem
    exact hdisj p.2 hmem (hranK p hp)
  refine ⟨_, sF.rules, hrun, ?_, rfl, rfl, rfl, ?_, ?_, ?_⟩
  · rw [remove_duplicate_types, hrun]
    rfl
  · intro r
    simp only [hkid]
    exact hdeleted r
  · intro p hp
    have h1 := (hdeleted p.1).mpr (List.mem_map_of_mem Prod.fst hp)
    simp only [hkid]
    exact ⟨h1.1, h1.2, hranK p hp⟩
  · intro inst hinst r href
    simp only [hkid]
    have hx : ∃ x, inst = rewrite_inst_with_rules sF.rules x := by
      simp only [SpvModule.allInsts, List.mem_append] at hinst
      rcases hinst with ((h | h) | h) | h
      all_goals
        obtain ⟨x, _, hx⟩ := List.mem_map.mp h
        exact ⟨x, hx.symm⟩
    obtain ⟨x, rfl⟩ := hx
    obtain ⟨r0, -, rfl⟩ := references_rewrite sF.rules x r href
    have hnot := lookupD_not_in_dom sF.rules hdr r0
    rintro ⟨h1, h2⟩
    exact hnot ((hdeleted _).mp ⟨h1, h2⟩)

/-- Witness module for C1: two duplicate 32-bit integer type declarations
(ids 1 and 2) and a global variable whose result type and initializer
reference the doomed id 2. -/
def typesWitnessModule : SpvModule :=
  ⟨[], [],
    [⟨Op.TypeInt, some 1, none, [Operand.LiteralInt32 32, Operand.LiteralInt32 0]⟩,
     ⟨Op.TypeInt, some 2, none, [Operand.LiteralInt32 32, Operand.LiteralInt32 0]⟩],
    [⟨Op.Variable, some 5, some 2, [Operand.IdRef 2]⟩]⟩

/-- Witness for C1 at `typesWitnessModule`. -/
theorem C1_no_references_to_deleted_witness :
    ∃ m' rules, dedupTypesRun typesWitnessModule = some (m', rules) ∧
      remove_duplicate_types typesWitnessModule = some m' ∧
      m'.capabilities = typesWitnessModule.capabilities.map (rewrite_inst_with_rules rules) ∧
      m'.ext_inst_imports =
        typesWitnessModule.ext_inst_imports.map (rewrite_inst_with_rules rules) ∧
      m'.functions = typesWitnessModule.functions.map (rewrite_inst_with_rules rules) ∧
      (∀ r, (r ∈ resultIds typesWitnessModule.types_global_values ∧
             r ∉ resultIds m'.types_global_values) ↔ r ∈ rules.map Prod.fst) ∧
      (∀ p ∈ rules, p.1 ∈ resultIds typesWitnessModule.types_global_values ∧
        p.1 ∉ resultIds m'.types_global_values ∧
        p.2 ∈ resultIds m'.types_global_values) ∧
      (∀ inst ∈ m'.allInsts, ∀ r, InstReferences inst r →
        ¬(r ∈ resultIds typesWitnessModule.types_global_values ∧
          r ∉ resultIds m'.types_global_values)) :=
  C1_no_references_to_deleted typesWitnessModule (by decide) (by decide)

/-! ### Claims C2/C3/C5: the structural key -/

theorem map_rewrite_nil (l : List Instruction) :
    l.map (rewrite_inst_with_rules []) = l := by
  rw [show rewrite_inst_with_rules [] = id from funext rewrite_inst_nil, List.map_id]

/-- C3: the structural key consists of the opcode, the canonicalized
result type when present, and the serialized operands — never the
instruction's own result id.  Consequently two integer-type declarations
with identical width and signedness collapse (second conjunct), while two
integer constants with the same literal `1` but different result types
(8-bit versus 16-bit) are both kept, the module coming out unchanged
(third conjunct). -/
theorem C3_key_shape_and_consequences :
    (∀ (u : List Nat) (inst : Instruction) (x : Option Nat),
      instKey u { inst with result_id := x } = instKey u inst) ∧
    (∀ cs es fs : List Instruction,
      remove_duplicate_types
        ⟨cs, es,
         [⟨Op.TypeInt, some 1, none, [Operand.LiteralInt32 32, Operand.LiteralInt32 1]⟩,
          ⟨Op.TypeInt, some 2, none, [Operand.LiteralInt32 32, Operand.LiteralInt32 1]⟩],
         fs⟩ = some
        ⟨cs.map (rewrite_inst_with_rules [(2, 1)]),
         es.map (rewrite_inst_with_rules [(2, 1)]),
         [⟨Op.TypeInt, some 1, none, [Operand.LiteralInt32 32, Operand.LiteralInt32 1]⟩],
         fs.map (rewrite_inst_with_rules [(2, 1)])⟩) ∧
    (∀ cs es fs : List Instruction,
      remove_duplicate_types
        ⟨cs, es,
         [⟨Op.TypeInt, some 1, none, [Operand.LiteralInt32 8, Operand.LiteralInt32 0]⟩,
          ⟨Op.TypeInt, some 2, none, [Operand.LiteralInt32 16, Operand.LiteralInt32 0]⟩,
          ⟨Op.Constant, some 3, some 1, [Operand.LiteralInt32 1]⟩,
          ⟨Op.Constant, some 4, some 2, [Operand.LiteralInt32 1]⟩],
         fs⟩ = some
        ⟨cs, es,
         [⟨Op.TypeInt, some 1, none, [Operand.LiteralInt32 8, Operand.LiteralInt32 0]⟩,
          ⟨Op.TypeInt, some 2, none, [Operand.LiteralInt32 16, Operand.LiteralInt32 0]⟩,
          ⟨Op.Constant, some 3, some 1, [Operand.LiteralInt32 1]⟩,
          ⟨Op.Constant, some 4, some 2, [Operand.LiteralInt32 1]⟩],
         fs⟩) := by
  refine ⟨fun u inst x => rfl, fun cs es fs => rfl, fun cs es fs => ?_⟩
  have h : remove_duplicate_types
      ⟨cs, es,
       [⟨Op.TypeInt, some 1, none, [Operand.LiteralInt32 8, Operand.LiteralInt32 0]⟩,
        ⟨Op.TypeInt, some 2, none, [Operand.LiteralInt32 16, Operand.LiteralInt32 0]⟩,
        ⟨Op.Constant, some 3, some 1, [Operand.LiteralInt32 1]⟩,
        ⟨Op.Constant, some 4, some 2, [Operand.LiteralInt32 1]⟩],
       fs⟩ = some
      ⟨cs.map (rewrite_inst_with_rules []),
       es.map (rewrite_inst_with_rules []),
       [⟨Op.TypeInt, some 1, none, [Operand.LiteralInt32 8, Operand.LiteralInt32 0]⟩,
        ⟨Op.TypeInt, some 2, none, [Operand.LiteralInt32 16, Operand.LiteralInt32 0]⟩,
        ⟨Op.Constant, some 3, some 1, [Operand.LiteralInt32 1]⟩,
        ⟨Op.Constant, some 4, some 2, [Operand.LiteralInt32 1]⟩],
       fs.map (rewrite_inst_with_rules [])⟩ := rfl
  rw [h, map_rewrite_nil, map_rewrite_nil, map_rewrite_nil]

/-- Plain byte serialization of an operand list (no forward-pointer
placeholder involved). -/
def assembleOperands : List Operand → List Nat
  | [] => []
  | op :: rest => assembleOperand op ++ assembleOperands rest

theorem serializeOperands_congr (u : List Nat) {l1 l2 : List Operand}
    (h : List.Forall₂ (fun op1 op2 => op1 = op2 ∨
      ∃ r1 r2, r1 ∈ u ∧ r2 ∈ u ∧
        op1 = Operand.IdRef r1 ∧ op2 = Operand.IdRef r2) l1 l2) :
    serializeOperands u l1 = serializeOperands u l2 := by
  induction h with
  | nil => rfl
  | cons hrel _ ih =>
    rcases hrel with rfl | ⟨r1, r2, h1, h2, rfl, rfl⟩
    · rw [serializeOperands, serializeOperands, ih]
    · rw [serializeOperands, serializeOperands, ih]
      congr 1
      simp [serializeKeyOperand, h1, h2]

theorem serializeOperands_resolved (u : List Nat) (l : List Operand)
    (h : ∀ op ∈ l, ∀ r, op = Operand.IdRef r → r ∉ u) :
    serializeOperands u l = assembleOperands l := by
  induction l with
  | nil => rfl
  | cons op rest ih =>
    rw [serializeOperands, assembleOperands,
      ih (fun o ho r hr => h o (List.mem_cons_of_mem _ ho) r hr)]
    congr 1
    cases op
    next id =>
      have : id ∉ u := h (Operand.IdRef id) (List.mem_cons_self _ _) id rfl
      simp [serializeKeyOperand, this]
    all_goals rfl

theorem serializeOperands_append (u : List Nat) (l1 l2 : List Operand) :
    serializeOperands u (l1 ++ l2) =
      serializeOperands u l1 ++ serializeOperands u l2 := by
  induction l1 with
  | nil => rfl
  | cons op rest ih =>
    rw [List.cons_append, serializeOperands, serializeOperands, ih,
      List.append_assoc]

/-- C5: the forward-pointer placeholder in the structural key.  First
conjunct: two instructions with equal opcode and result type whose
operand lists agree except that, position by position, they may reference
two different currently-unresolved forward pointers, get the same key
(the placeholder collapses all pending forward pointers).  Second
conjunct: when no operand of either instruction references an unresolved
forward pointer, the keys are equal exactly when the byte serializations
of the operand lists are equal.  Third conjunct: in particular, two
instructions identical except for one resolved reference operand get
equal keys only if those references are the same identifier — distinct
resolved types are never falsely equated. -/
theorem C5_forward_pointer_placeholder :
    (∀ (u : List Nat) (i1 i2 : Instruction),
      i1.opcode = i2.opcode → i1.result_type = i2.result_type →
      List.Forall₂ (fun op1 op2 => op1 = op2 ∨
        ∃ r1 r2, r1 ∈ u ∧ r2 ∈ u ∧
          op1 = Operand.IdRef r1 ∧ op2 = Operand.IdRef r2)
        i1.operands i2.operands →
      instKey u i1 = instKey u i2) ∧
    (∀ (u : List Nat) (i1 i2 : Instruction),
      i1.opcode = i2.opcode → i1.result_type = i2.result_type →
      (∀ op ∈ i1.operands, ∀ r, op = Operand.IdRef r → r ∉ u) →
      (∀ op ∈ i2.operands, ∀ r, op = Operand.IdRef r → r ∉ u) →
      (instKey u i1 = instKey u i2 ↔
        assembleOperands i1.operands = assembleOperands i2.operands)) ∧
    (∀ (u : List Nat) (opc : Op) (rid1 rid2 : Option Nat) (rty : Option Nat)
        (pre post : List Operand) (r1 r2 : Nat),
      r1 ∉ u → r2 ∉ u →
      instKey u ⟨opc, rid1, rty, pre ++ Operand.IdRef r1 :: post⟩ =
        instKey u ⟨opc, rid2, rty, pre ++ Operand.IdRef r2 :: post⟩ →
      r1 = r2) := by
  refine ⟨?_, ?_, ?_⟩
  · intro u i1 i2 hop hrt hrel
    rw [instKey, instKey, hop, hrt, serializeOperands_congr u hrel]
  · intro u i1 i2 hop hrt h1 h2
    rw [instKey, instKey, hop, hrt, serializeOperands_resolved u _ h1,
      serializeOperands_resolved u _ h2]
    constructor
    · intro h
      have h' := (List.cons.injEq _ _ _ _).mp h |>.2
      exact List.append_cancel_left h'
    · intro h
      rw [h]
  · intro u opc rid1 rid2 rty pre post r1 r2 hr1 hr2 h
    rw [instKey, instKey] at h
    have h' := (List.cons.injEq _ _ _ _).mp h |>.2
    have h'' := List.append_cancel_left h'
    rw [serializeOperands_append, serializeOperands_append] at h''
    have h3 := List.append_cancel_left h''
    rw [serializeOperands, serializeOperands] at h3
    have e1 : serializeKeyOperand u (Operand.IdRef r1) = [r1] := by
      simp [serializeKeyOperand, assembleOperand, hr1]
    have e2 : serializeKeyOperand u (Operand.IdRef r2) = [r2] := by
      simp [serializeKeyOperand, assembleOperand, hr2]
    rw [e1, e2] at h3
    exact (List.cons.injEq _ _ _ _).mp h3 |>.1

/-- Witness for C5: an unresolved-pointer pair keyed equal, a resolved
pair keyed apart, and a resolved reference forced equal by key
equality. -/
theorem C5_forward_pointer_placeholder_witness :
    (instKey [7, 8] ⟨Op.TypePointer, some 1, none,
        [Operand.StorageClass 2, Operand.IdRef 7]⟩ =
      instKey [7, 8] ⟨Op.TypePointer, some 2, none,
        [Operand.StorageClass 2, Operand.IdRef 8]⟩) ∧
    (instKey [] ⟨Op.TypeVector, some 1, none,
        [Operand.IdRef 5, Operand.LiteralInt32 4]⟩ ≠
      instKey [] ⟨Op.TypeVector, some 2, none,
        [Operand.IdRef 6, Operand.LiteralInt32 4]⟩) ∧
    (5 : Nat) = 5 := by
  refine ⟨?_, ?_, ?_⟩
  · exact C5_forward_pointer_placeholder.1 [7, 8] _ _ rfl rfl
      (List.Forall₂.cons (Or.inl rfl)
        (List.Forall₂.cons
          (Or.inr ⟨7, 8, by decide, by decide, rfl, rfl⟩) List.Forall₂.nil))
  · intro h
    have := (C5_forward_pointer_placeholder.2.1 []
      ⟨Op.TypeVector, some 1, none, [Operand.IdRef 5, Operand.LiteralInt32 4]⟩
      ⟨Op.TypeVector, some 2, none, [Operand.IdRef 6, Operand.LiteralInt32 4]⟩
      rfl rfl
      (by intro op hop r hr; simp) (by intro op hop r hr; simp)).mp h
    simp [assembleOperands, assembleOperand] at this
  · exact C5_forward_pointer_placeholder.2.2 [] Op.TypeVector (some 1) (some 2)
      none [] [Operand.LiteralInt32 4] 5 5 (by simp) (by simp) rfl

/-! ### Claim C2: canonicalization before keying -/

theorem resultIds_append (l1 l2 : List Instruction) :
    resultIds (l1 ++ l2) = resultIds l1 ++ resultIds l2 := by
  simp [resultIds, List.filterMap_append]

theorem typesLoop_append_some (l1 l2 : List Instruction) (s s1 : TState)
    (p1 : List Instruction) (h : typesLoop s l1 = some (p1, s1)) :
    typesLoop s (l1 ++ l2) =
      (typesLoop s1 l2).map (fun q => (p1 ++ q.1, q.2)) := by
  induction l1 generalizing s p1 with
  | nil =>
    simp only [typesLoop] at h
    obtain ⟨h1, h2⟩ : p1 = [] ∧ s = s1 := by
      have := Option.some.inj h
      exact ⟨(congrArg Prod.fst this).symm, congrArg Prod.snd this⟩
    subst h1
    subst h2
    simp only [List.nil_append]
    cases typesLoop s l2 with
    | none => rfl
    | some q => simp
  | cons i rest ih =>
    rw [List.cons_append]
    cases hstep : typeStep s i with
    | none =>
      simp only [typesLoop, hstep] at h
      exact Option.noConfusion h
    | some p =>
      obtain ⟨i', s'⟩ := p
      simp only [typesLoop, hstep] at h ⊢
      cases hrest : typesLoop s' rest with
      | none =>
        rw [hrest] at h
        exact absurd h (by simp)
      | some q =>
        obtain ⟨l, sF⟩ := q
        rw [hrest] at h
        obtain ⟨h1, h2⟩ : i' :: l = p1 ∧ sF = s1 := by
          have := Option.some.inj h
          exact ⟨congrArg Prod.fst this, congrArg Prod.snd this⟩
        subst h2
        subst h1
        rw [ih s' l hrest]
        cases typesLoop sF l2 with
        | none => rfl
        | some q =>
          obtain ⟨p2, s2⟩ := q
          simp

/-- C2: the linchpin canonicalize-before-keying invariant, plus its
struct-merge consequence.  First conjunct, for every module satisfying
the pass's preconditions: take any instruction of the types section whose
references all point at earlier declarations (the no-forward-references
precondition, instantiated at that instruction), and the loop state
reached just before it is processed.  Then every identifier-reference
operand and result-type of the instruction as it is about to be keyed —
i.e. after `rewrite_inst_with_rules` with the rules built so far, which
is exactly what `instKey` receives — is already canonical: it is not in
the domain of the rules built so far, and the completed pass's final
rewrite rules leave it unchanged.  Second conjunct: consequently, in a
module declaring two duplicate integer types (ids 1, 2) and two
structurally identical structs whose members reference the two different
duplicates (ids 3, 4), the structs' member operands are canonicalized
before keying and the two structs collapse into one. -/
theorem C2_canonicalize_before_keying :
    (∀ (m : SpvModule),
      (∀ i ∈ m.types_global_values, WFTypeInst i = true) →
      (resultIds m.types_global_values).Nodup →
      ∀ pre inst post, m.types_global_values = pre ++ inst :: post →
      (∀ r0, InstReferences inst r0 → r0 ∈ resultIds pre) →
      ∀ processed1 s1, typesLoop ⟨[], [], []⟩ pre = some (processed1, s1) →
      ∀ m' rulesF, dedupTypesRun m = some (m', rulesF) →
      ∀ r, InstReferences (rewrite_inst_with_rules s1.rules inst) r →
        r ∉ s1.rules.map Prod.fst ∧ lookupD rulesF r = r) ∧
    (∀ cs es fs : List Instruction,
      remove_duplicate_types
        ⟨cs, es,
         [⟨Op.TypeInt, some 1, none, [Operand.LiteralInt32 32, Operand.LiteralInt32 0]⟩,
          ⟨Op.TypeInt, some 2, none, [Operand.LiteralInt32 32, Operand.LiteralInt32 0]⟩,
          ⟨Op.TypeStruct, some 3, none, [Operand.IdRef 1]⟩,
          ⟨Op.TypeStruct, some 4, none, [Operand.IdRef 2]⟩],
         fs⟩ = some
        ⟨cs.map (rewrite_inst_with_rules [(4, 3), (2, 1)]),
         es.map (rewrite_inst_with_rules [(4, 3), (2, 1)]),
         [⟨Op.TypeInt, some 1, none, [Operand.LiteralInt32 32, Operand.LiteralInt32 0]⟩,
          ⟨Op.TypeStruct, some 3, none, [Operand.IdRef 1]⟩],
         fs.map (rewrite_inst_with_rules [(4, 3), (2, 1)])⟩) := by
  constructor
  · intro m hwf hnodup pre inst post hsplit hnofwd processed1 s1 hloop1 m' rulesF hrun
      r href
    obtain ⟨processedF, sF, newRulesF, hloopF, hrulesF, hiffF, hdisjF, hranF, hkeysF⟩ :=
      typesLoop_spec m.types_global_values ⟨[], [], []⟩ hwf hnodup (by simp) (by simp)
    rw [List.append_nil] at hrulesF
    have hrunF : dedupTypesRun m = some
        ({ capabilities := m.capabilities.map (rewrite_inst_with_rules sF.rules),
           ext_inst_imports :=
             m.ext_inst_imports.map (rewrite_inst_with_rules sF.rules),
           types_global_values :=
             (processedF.filter (fun i => i.opcode ≠ Op.Nop)).map
               (rewrite_inst_with_rules sF.rules),
           functions := m.functions.map (rewrite_inst_with_rules sF.rules) },
          sF.rules) := by
      simp only [dedupTypesRun, hloopF]
    have hr2 : rulesF = sF.rules := by
      rw [hrun] at hrunF
      exact congrArg Prod.snd (Option.some.inj hrunF)
    -- decompose the full run along the split
    rw [hsplit, typesLoop_append_some pre (inst :: post) ⟨[], [], []⟩ s1 processed1 hloop1]
      at hloopF
    cases h2 : typesLoop s1 (inst :: post) with
    | none =>
      rw [h2] at hloopF
      exact absurd hloopF (by simp)
    | some q =>
      obtain ⟨p2, s2⟩ := q
      rw [h2] at hloopF
      have hinj := Option.some.inj (show some (processed1 ++ p2, s2) =
        some (processedF, sF) from hloopF)
      have hpF : processed1 ++ p2 = processedF := congrArg Prod.fst hinj
      -- run the invariant machinery on the prefix
      have hwfpre : ∀ i ∈ pre, WFTypeInst i = true :=
        fun i hi => hwf i (by rw [hsplit]; exact List.mem_append_left _ hi)
      have hidsapp : resultIds m.types_global_values =
          resultIds pre ++ resultIds (inst :: post) := by
        rw [hsplit]
        exact resultIds_append _ _
      have hnoduppre : (resultIds pre).Nodup := by
        rw [hidsapp] at hnodup
        exact hnodup.of_append_left
      obtain ⟨processed1', s1', newRules1, hloop1', hrules1, hiff1, hdisj1, hran1,
        hkeys1⟩ := typesLoop_spec pre ⟨[], [], []⟩ hwfpre hnoduppre (by simp) (by simp)
      rw [hloop1] at hloop1'
      have hinj1 := Option.some.inj hloop1'
      have hps : processed1 = processed1' := congrArg Prod.fst hinj1
      have hss : s1 = s1' := congrArg Prod.snd hinj1
      subst hps
      subst hss
      rw [List.append_nil] at hrules1
      -- the reference came from a reference of inst, pushed through s1.rules
      obtain ⟨r0, hr0ref, hr0eq⟩ := references_rewrite s1.rules inst r href
      have hr0pre : r0 ∈ resultIds pre := hnofwd r0 hr0ref
      -- it lands among the surviving canonical ids of the prefix
      have hrk : r ∈ resultIds (processed1.filter (fun i => i.opcode ≠ Op.Nop)) := by
        rw [hr0eq]
        unfold lookupD
        cases halor : alookup s1.rules r0 with
        | some c =>
          have hmem : (r0, c) ∈ newRules1 := by
            rw [← hrules1]
            exact alookup_mem _ _ _ halor
          rcases hran1 (r0, c) hmem with h | h
          · simp at h
          · exact h
        | none =>
          have hnd : r0 ∉ newRules1.map Prod.fst := by
            rw [← hrules1]
            exact (alookup_eq_none_iff _ _).mp halor
          rcases (hiff1 r0).mp hr0pre with h | h
          · exact absurd h hnd
          · exact h
      constructor
      · rw [hrules1]
        intro hmem
        exact hdisj1 r hmem hrk
      · rw [hr2]
        have hrkF : r ∈ resultIds (processedF.filter (fun i => i.opcode ≠ Op.Nop)) := by
          rw [← hpF, List.filter_append, resultIds_append]
          exact List.mem_append_left _ hrk
        have hnotF : r ∉ sF.rules.map Prod.fst := by
          rw [hrulesF]
          intro hmem
          exact hdisjF r hmem hrkF
        unfold lookupD
        rw [(alookup_eq_none_iff _ _).mpr hnotF]
        rfl
  · intro cs es fs
    rfl

/-- Witness for C2: in the four-instruction module, at the moment the
second struct (id 4, referencing the doomed id 2) is keyed, its rewritten
member reference 1 is canonical — outside the rules built so far and
fixed by the final rules — and the module collapses as claimed. -/
theorem C2_canonicalize_before_keying_witness :
    ((1 : Nat) ∉ ([((2 : Nat), (1 : Nat))]).map Prod.fst ∧
      lookupD [(4, 3), (2, 1)] 1 = 1) ∧
    remove_duplicate_types
      ⟨[], [],
       [⟨Op.TypeInt, some 1, none, [Operand.LiteralInt32 32, Operand.LiteralInt32 0]⟩,
        ⟨Op.TypeInt, some 2, none, [Operand.LiteralInt32 32, Operand.LiteralInt32 0]⟩,
        ⟨Op.TypeStruct, some 3, none, [Operand.IdRef 1]⟩,
        ⟨Op.TypeStruct, some 4, none, [Operand.IdRef 2]⟩],
       []⟩ = some
      ⟨[], [],
       [⟨Op.TypeInt, some 1, none, [Operand.LiteralInt32 32, Operand.LiteralInt32 0]⟩,
        ⟨Op.TypeStruct, some 3, none, [Operand.IdRef 1]⟩],
       []⟩ := by
  constructor
  · exact C2_canonicalize_before_keying.1
      ⟨[], [],
       [⟨Op.TypeInt, some 1, none, [Operand.LiteralInt32 32, Operand.LiteralInt32 0]⟩,
        ⟨Op.TypeInt, some 2, none, [Operand.LiteralInt32 32, Operand.LiteralInt32 0]⟩,
        ⟨Op.TypeStruct, some 3, none, [Operand.IdRef 1]⟩,
        ⟨Op.TypeStruct, some 4, none, [Operand.IdRef 2]⟩],
       []⟩ (by decide) (by decide)
      [⟨Op.TypeInt, some 1, none, [Operand.LiteralInt32 32, Operand.LiteralInt32 0]⟩,
       ⟨Op.TypeInt, some 2, none, [Operand.LiteralInt32 32, Operand.LiteralInt32 0]⟩,
       ⟨Op.TypeStruct, some 3, none, [Operand.IdRef 1]⟩]
      ⟨Op.TypeStruct, some 4, none, [Operand.IdRef 2]⟩ [] rfl
      (by
        intro r0 href
        rcases href with h | ⟨op, hop, hid⟩
        · exact Option.noConfusion h
        · simp only [List.mem_singleton] at hop
          subst hop
          simp only [operand_idref] at hid
          have : r0 = 2 := (Option.some.inj hid).symm
          subst this
          decide)
      [⟨Op.TypeInt, some 1, none, [Operand.LiteralInt32 32, Operand.LiteralInt32 0]⟩,
       ⟨Op.Nop, none, none, []⟩,
       ⟨Op.TypeStruct, some 3, none, [Operand.IdRef 1]⟩]
      ⟨[(2, 1)], [([30, 1], 3), ([21, 32, 0], 1)], []⟩ rfl
      ⟨[], [],
       [⟨Op.TypeInt, some 1, none, [Operand.LiteralInt32 32, Operand.LiteralInt32 0]⟩,
        ⟨Op.TypeStruct, some 3, none, [Operand.IdRef 1]⟩],
       []⟩ [(4, 3), (2, 1)] rfl
      1 (Or.inr ⟨Operand.IdRef 1, by decide, rfl⟩)
  · exact C2_canonicalize_before_keying.2 [] [] []
